import Mathlib

/-!
# AutoHelper index service — shallow embedding

This file embeds `autohelper/modules/index/service.py` (class `IndexService`)
together with the parts of the data model it operates on, and proves / refutes
the frozen claims about it.

Modelling conventions:
* Paths are lists of path segments (`List String`); `joinSegs` renders them the
  way Python renders `rel_path` / `canonical_path` strings.
* The SQLite database is a record of tables (lists of rows).  Each call into
  the database driver (`db.execute` / `db.commit`) is one `dbCall`; the model
  carries an operation counter `opIndex` and a list `failOps` of operation
  indices at which the connection raises, which models transient and permanent
  driver failures (`sqlite3.OperationalError` etc.).  `failOps = []` is a
  database that never fails.
* `utcnow_iso` / `time.time` are modelled by a monotone counter `clock`
  (timestamps are `Nat`); `generate_file_id` / `generate_index_run_id` /
  `generate_root_id` by a counter `idGen` (these generators are assumed to
  produce fresh identifiers, which the well-formedness predicate below states
  as: every stored id is below the counter).
* `local_fs.walk` output is a list of `(parent, dirs, files)` triples with
  parent paths relative to the scanned root; `os.walk`'s in-place pruning of
  dot-directories (`dirs[:] = [d for d in dirs if not d.startswith('.')]`)
  means triples lying under a dot-directory are never yielded, which the model
  expresses by filtering triples whose parent contains a dot segment.
* `hasher.hash_file` (module `autohelper/infra/fs/hashing.py`) is an oracle
  `HashFn : List String → Option String`; `none` models the call raising
  (the service catches the exception and leaves the hash `NULL`).
* `ScanResult` (module `autohelper/modules/index/types.py`, imported by the
  service) is reconstructed from its usage in the service: counters
  `added/updated/removed/errors/total_size/duration_ms`, all initialised to 0.
-/

namespace AutoHelper

/-- Result of `local_fs.stat` — the fields the index service reads. -/
structure FileStat where
  size : Nat
  mtime_ns : Nat
  deriving Repr, DecidableEq

/-- A row of the `files` table.  Columns as used by `_scan_root` /
`_upsert_file`; `mime` is written (as NULL) by the UPDATE branch only. -/
structure FileRecord where
  file_id : Nat
  root_id : String
  canonical_path : String
  rel_path : String
  size : Nat
  mtime_ns : Nat
  content_hash : Option String
  indexed_at : Nat
  last_seen_at : Nat
  is_dir : Bool
  ext : String
  mime : Option String
  deriving Repr, DecidableEq

/-- `IndexRunStatus` from `autohelper.shared.types`. -/
inductive IndexRunStatus where
  | running
  | completed
  | failed
  | cancelled
  deriving Repr, DecidableEq

/-- Exceptions that can escape the index service in the model:
a lost/failing database connection, or `NotFoundError` for an unknown root. -/
inductive ErrKind where
  | connLost
  | notFound (resource_id : String)
  deriving Repr, DecidableEq

/-- `ScanResult` — mutable counters accumulated during a scan
(reconstructed from its usage in `service.py`). -/
structure ScanResult where
  added : Nat := 0
  updated : Nat := 0
  removed : Nat := 0
  errors : Nat := 0
  total_size : Nat := 0
  duration_ms : Nat := 0
  deriving Repr, DecidableEq

/-- Payload of the `stats_json` column: either the serialized `ScanResult`
(success path) or the serialized error (failure path). -/
inductive StatsJson where
  | runStats (s : ScanResult)
  | errorMsg (e : ErrKind)
  deriving Repr, DecidableEq

/-- A row of the `index_runs` table. -/
structure IndexRunRow where
  index_run_id : Nat
  kind : String
  started_at : Option Nat
  status : IndexRunStatus
  finished_at : Option Nat
  stats_json : Option StatsJson
  deriving Repr, DecidableEq

/-- A row of the `roots` table. -/
structure RootRow where
  root_id : String
  path : List String
  enabled : Bool
  deriving Repr, DecidableEq

/-- A row of the `index_state` table. -/
structure IndexStateRow where
  root_id : String
  last_full_scan_at : Nat
  deriving Repr, DecidableEq

/-- A row of the `file_aliases` table (the table exists in the schema and is
checked by `manual_verify_rename.py`; the index service never writes it). -/
structure AliasRow where
  file_id : Nat
  old_canonical_path : String
  detected_at : Nat
  deriving Repr, DecidableEq

/-- The database: tables plus the failure-injection model of the driver. -/
structure Db where
  files : List FileRecord
  roots : List RootRow
  index_runs : List IndexRunRow
  index_state : List IndexStateRow
  file_aliases : List AliasRow
  opIndex : Nat
  failOps : List Nat
  deriving Repr, DecidableEq

/-- Full mutable state threaded through the service: the database, the
wall clock, and the id generator. -/
structure St where
  db : Db
  clock : Nat
  idGen : Nat
  deriving Repr, DecidableEq

/-- One call into the database driver: advances the operation counter and
reports whether this operation raises. -/
def dbCall (st : St) : Bool × St :=
  (st.db.failOps.contains st.db.opIndex,
   { st with db := { st.db with opIndex := st.db.opIndex + 1 } })

/-- `utcnow_iso()` / `time.time()` — read and advance the clock. -/
def utcnow (st : St) : Nat × St :=
  (st.clock, { st with clock := st.clock + 1 })

/-- `generate_file_id` / `generate_index_run_id` / `generate_root_id` —
draw a fresh identifier. -/
def freshId (st : St) : Nat × St :=
  (st.idGen, { st with idGen := st.idGen + 1 })

/-- Replace the `files` table. -/
def setFiles (st : St) (fs : List FileRecord) : St :=
  { st with db := { st.db with files := fs } }

/-- Replace the `index_runs` table. -/
def setRuns (st : St) (rs : List IndexRunRow) : St :=
  { st with db := { st.db with index_runs := rs } }

/-- A file entry of one `walk` triple; `stat = none` models `fs.stat`
raising for that entry. -/
structure WalkFile where
  name : String
  stat : Option FileStat
  deriving Repr, DecidableEq

/-- One `(parent, dirs, files)` triple yielded by `local_fs.walk`,
with `parentRel` the directory's path relative to the scanned root. -/
structure WalkTriple where
  parentRel : List String
  dirs : List String
  files : List WalkFile
  deriving Repr, DecidableEq

/-- The walk of one root. -/
abbrev FS := List WalkTriple

/-- The content-hash oracle (`hasher.hash_file`); `none` models a raise. -/
abbrev HashFn := List String → Option String

/-- Render path segments the way the service renders `rel_path` and
`canonical_path` strings. -/
def joinSegs : List String → String
  | [] => ""
  | [s] => s
  | s :: rest => s ++ "/" ++ joinSegs rest

/-- `name.startswith('.')`. -/
def dotFirst (s : String) : Bool :=
  match s.data with
  | [] => false
  | c :: _ => c == '.'

/-- Index of the last `.` in a character list (`str.rfind('.')`). -/
def lastDotIdx : List Char → Option Nat
  | [] => none
  | c :: rest =>
    match lastDotIdx rest with
    | some i => some (i + 1)
    | none => if c == '.' then some 0 else none

/-- `pathlib.Path(...).suffix` of a final path component: `name[i:]` for
`i = name.rfind('.')` when `0 < i < len(name) - 1`, else empty. -/
def pathSuffix (name : String) : String :=
  let cs := name.data
  match lastDotIdx cs with
  | none => ""
  | some i => if 0 < i ∧ i < cs.length - 1 then String.mk (cs.drop i) else ""

/-- `str.lower()` (ASCII model; extensions are ASCII in practice). -/
def strLower (s : String) : String :=
  String.mk (s.data.map Char.toLower)

/-- Lines 334–339 of `service.py`: hash when forced or when the size is
strictly below 1,000,000 bytes; a hashing failure yields `none` (`pass`). -/
def computeContentHash (hashFn : HashFn) (force_hash : Bool)
    (root_path rel_segs : List String) (size : Nat) : Option String :=
  if force_hash = true ∨ size < 1000000 then hashFn (root_path ++ rel_segs)
  else none

/-- `IndexService._upsert_file`.  Returns `(raised, st)`; on the UPDATE
branch the clock is consumed for the two `utcnow_iso()` arguments
(`last_seen_at` then `indexed_at`), on the INSERT branch for
(`indexed_at` then `last_seen_at`); argument evaluation precedes the
driver call. -/
def upsertFile (hashFn : HashFn) (root_id : String)
    (root_path rel_segs : List String) (stat : FileStat)
    (existing_id : Option Nat) (force_hash : Bool) (st : St) : Bool × St :=
  let canonical_path := joinSegs (root_path ++ rel_segs)
  let content_hash := computeContentHash hashFn force_hash root_path rel_segs stat.size
  match existing_id with
  | some fid =>
    let (now_seen, st1) := utcnow st
    let (now_indexed, st2) := utcnow st1
    let (fail, st3) := dbCall st2
    if fail then (true, st3)
    else
      (false, setFiles st3 (st3.db.files.map (fun r =>
        if r.file_id = fid then
          { r with size := stat.size, mtime_ns := stat.mtime_ns,
                   content_hash := content_hash, last_seen_at := now_seen,
                   indexed_at := now_indexed, mime := none }
        else r)))
  | none =>
    let (fid, st1) := freshId st
    let (now_indexed, st2) := utcnow st1
    let (now_seen, st3) := utcnow st2
    let (fail, st4) := dbCall st3
    if fail then (true, st4)
    else
      (false, setFiles st4 (st4.db.files ++
        [{ file_id := fid, root_id := root_id,
           canonical_path := canonical_path, rel_path := joinSegs rel_segs,
           size := stat.size, mtime_ns := stat.mtime_ns,
           content_hash := content_hash, indexed_at := now_indexed,
           last_seen_at := now_seen, is_dir := false,
           ext := strLower (pathSuffix (rel_segs.getLastD "")),
           mime := none }]))

/-- Lines 281–284 of `service.py`: refresh `last_seen_at` of an unchanged
record. -/
def updateLastSeen (fid : Nat) (st : St) : Bool × St :=
  let (now, st1) := utcnow st
  let (fail, st2) := dbCall st1
  if fail then (true, st2)
  else
    (false, setFiles st2 (st2.db.files.map (fun r =>
      if r.file_id = fid then { r with last_seen_at := now } else r)))

/-- Projection of a `files` row onto the columns selected by the pre-load
query (`SELECT file_id, rel_path, mtime_ns, size, content_hash`). -/
structure ExRow where
  file_id : Nat
  rel_path : String
  mtime_ns : Nat
  size : Nat
  content_hash : Option String
  deriving Repr, DecidableEq

/-- Project a full row onto the pre-load columns. -/
def projectEx (r : FileRecord) : ExRow :=
  { file_id := r.file_id, rel_path := r.rel_path, mtime_ns := r.mtime_ns,
    size := r.size, content_hash := r.content_hash }

/-- `existing_files[row["rel_path"]] = dict(row)` — insert into a Python
dict: replace in place when the key exists, append otherwise. -/
def dictInsert (d : List ExRow) (r : ExRow) : List ExRow :=
  if d.any (fun x => x.rel_path = r.rel_path) then
    d.map (fun x => if x.rel_path = r.rel_path then r else x)
  else d ++ [r]

/-- Build the `existing_files` dict from the pre-loaded rows. -/
def buildDict (rows : List ExRow) : List ExRow :=
  rows.foldl dictInsert []

/-- `existing_files.get(rel_path)`. -/
def dictLookup (d : List ExRow) (k : String) : Option ExRow :=
  d.find? (fun x => x.rel_path = k)

/-- A file entry as visited by the scan loop. -/
structure Entry where
  parentRel : List String
  name : String
  stat : Option FileStat
  deriving Repr, DecidableEq

/-- The relative path string of a visited entry. -/
def entryRel (e : Entry) : String :=
  joinSegs (e.parentRel ++ [e.name])

/-- Whether no segment of a parent path is dot-prefixed (the scan prunes
dot-directories from the walk and skips dot-files). -/
def noHiddenSeg (segs : List String) : Bool :=
  segs.all (fun s => ¬ dotFirst s)

/-- The sequence of file entries the scan loop actually processes:
triples under a pruned dot-directory are never yielded, and dot-files
are skipped (`continue`). -/
def walkEntries (fs : FS) : List Entry :=
  fs.flatMap (fun t =>
    if noHiddenSeg t.parentRel then
      (t.files.filter (fun f => ¬ dotFirst f.name)).map
        (fun f => { parentRel := t.parentRel, name := f.name, stat := f.stat })
    else [])

/-- Accumulator of the scan loop: the stats counters, the
`seen_rel_paths` set, and the threaded state. -/
structure ScanAcc where
  stats : ScanResult
  seen : List String
  st : St

/-- The body of the per-file loop of `_scan_root` (lines 259–297),
including the per-entry `try/except`: `rel_path` is added to
`seen_rel_paths` before `stat`; any raise inside the entry is caught and
counted in `errors`. -/
def processEntry (hashFn : HashFn) (root_id : String) (root_path : List String)
    (existing : List ExRow) (force_hash : Bool)
    (acc : ScanAcc) (e : Entry) : ScanAcc :=
  let rel_segs := e.parentRel ++ [e.name]
  let rel_path := joinSegs rel_segs
  let seen1 := rel_path :: acc.seen
  match e.stat with
  | none =>
    -- fs.stat raised: caught per entry
    { acc with stats := { acc.stats with errors := acc.stats.errors + 1 },
               seen := seen1 }
  | some fstat =>
    let stats1 := { acc.stats with total_size := acc.stats.total_size + fstat.size }
    match dictLookup existing rel_path with
    | some ex =>
      if force_hash = false ∧ ex.size = fstat.size ∧ ex.mtime_ns = fstat.mtime_ns then
        match updateLastSeen ex.file_id acc.st with
        | (true, st1) =>
          { stats := { stats1 with errors := stats1.errors + 1 }, seen := seen1, st := st1 }
        | (false, st1) =>
          { stats := stats1, seen := seen1, st := st1 }
      else
        match upsertFile hashFn root_id root_path rel_segs fstat (some ex.file_id) force_hash acc.st with
        | (true, st1) =>
          { stats := { stats1 with errors := stats1.errors + 1 }, seen := seen1, st := st1 }
        | (false, st1) =>
          { stats := { stats1 with updated := stats1.updated + 1 }, seen := seen1, st := st1 }
    | none =>
      match upsertFile hashFn root_id root_path rel_segs fstat none force_hash acc.st with
      | (true, st1) =>
        { stats := { stats1 with errors := stats1.errors + 1 }, seen := seen1, st := st1 }
      | (false, st1) =>
        { stats := { stats1 with added := stats1.added + 1 }, seen := seen1, st := st1 }

/-- The deletion pass of `_scan_root` (lines 304–308): for each pre-loaded
record whose path was not seen, issue a DELETE.  Returns
`(aborted, removed_count, st)`; a driver failure aborts the remaining
deletions (the raise lands in the root-level `except`). -/
def deleteMissing (st : St) (rows : List ExRow) (seen : List String) :
    Bool × Nat × St :=
  match rows with
  | [] => (false, 0, st)
  | r :: rest =>
    if seen.contains r.rel_path then deleteMissing st rest seen
    else
      let (fail, st1) := dbCall st
      if fail then (true, 0, st1)
      else
        let st2 := setFiles st1 (st1.db.files.filter (fun f => f.file_id ≠ r.file_id))
        let (aborted, n, st3) := deleteMissing st2 rest seen
        (aborted, n + 1, st3)

/-- Outcome of `_scan_root`: a `ScanResult` (the root-level `except`
swallows failures into `errors`), or a raise from the pre-load query,
which is the only statement outside the `try`. -/
inductive ScanOut where
  | ok (stats : ScanResult) (st : St)
  | err (st : St)
  deriving Repr, DecidableEq

/-- The `existing_files` dict the pre-load query builds (lines 232–242). -/
def scanExisting (root_id : String) (st : St) : List ExRow :=
  buildDict ((st.db.files.filter (fun r => r.root_id = root_id)).map projectEx)

/-- The per-file loop of `_scan_root` over the whole walk, starting from
fresh stats and an empty `seen_rel_paths` set. -/
def scanFold (hashFn : HashFn) (root_id : String) (root_path : List String)
    (existing : List ExRow) (fs : FS) (force_hash : Bool) (st : St) : ScanAcc :=
  (walkEntries fs).foldl
    (processEntry hashFn root_id root_path existing force_hash)
    { stats := {}, seen := [], st := st }

/-- `IndexService._scan_root`. -/
def scanRoot (hashFn : HashFn) (root_id : String) (root_path : List String)
    (fs : FS) (force_hash : Bool) (st : St) : ScanOut :=
  -- pre-load of existing files (lines 232–242) — before the try block
  let (fail, st1) := dbCall st
  if fail then .err st1
  else
    let existing := scanExisting root_id st1
    -- try block (lines 247–310)
    let acc := scanFold hashFn root_id root_path existing fs force_hash st1
    -- commit after the walk (line 301)
    let (cfail, st2) := dbCall acc.st
    if cfail then .ok { acc.stats with errors := acc.stats.errors + 1 } st2
    else
      let (aborted, nrem, st3) := deleteMissing st2 existing acc.seen
      let stats1 := { acc.stats with removed := acc.stats.removed + nrem }
      if aborted then .ok { stats1 with errors := stats1.errors + 1 } st3
      else
        -- commit after deletions (line 310)
        let (c2fail, st4) := dbCall st3
        if c2fail then .ok { stats1 with errors := stats1.errors + 1 } st4
        else .ok stats1 st4

/-- Response of `rebuild_index` (`RunResponse` in `schemas.py`, fields as
constructed at lines 128–132). -/
structure RunResponse where
  run_id : Nat
  status : IndexRunStatus
  started_at : Nat
  deriving Repr, DecidableEq

/-- Outcome of `rebuild_index`: a response or a propagated exception. -/
inductive RebuildOut where
  | ok (resp : RunResponse) (st : St)
  | err (e : ErrKind) (st : St)
  deriving Repr, DecidableEq

/-- Outcome of the `try` block of `rebuild_index`: a value, or the
exception that the `except` handler will receive. -/
inductive BodyOut (α : Type) where
  | ok (a : α) (st : St)
  | err (e : ErrKind) (st : St)

/-- `IndexService._sync_configured_roots`: for each configured root path,
SELECT by path and INSERT a fresh root when absent; then commit. -/
def syncConfiguredRoots (cfgRoots : List (List String)) (st : St) :
    BodyOut Unit :=
  match cfgRoots with
  | [] =>
    -- final commit (line 224)
    let (fail, st1) := dbCall st
    if fail then .err .connLost st1 else .ok () st1
  | p :: rest =>
    let (fail, st1) := dbCall st    -- SELECT root_id FROM roots WHERE path = ?
    if fail then .err .connLost st1
    else if st1.db.roots.any (fun r => r.path = p) then
      syncConfiguredRoots rest st1
    else
      let (rid, st2) := freshId st1
      let (fail2, st3) := dbCall st2  -- INSERT INTO roots
      if fail2 then .err .connLost st3
      else
        syncConfiguredRoots rest
          { st3 with db := { st3.db with
              roots := st3.db.roots ++ [{ root_id := toString rid, path := p, enabled := true }] } }

/-- The per-root loop of `rebuild_index` (lines 88–108): scan each root,
accumulate the counters (`duration_ms` is not accumulated), upsert
`index_state`, and commit. -/
def scanRootsLoop (hashFn : HashFn) (fsOf : List String → FS) (force_hash : Bool)
    (roots : List (String × List String)) (total : ScanResult) (st : St) :
    BodyOut ScanResult :=
  match roots with
  | [] => .ok total st
  | (rid, rpath) :: rest =>
    match scanRoot hashFn rid rpath (fsOf rpath) force_hash st with
    | .err st1 => .err .connLost st1
    | .ok stats st1 =>
      let total1 : ScanResult :=
        { total with added := total.added + stats.added,
                     updated := total.updated + stats.updated,
                     removed := total.removed + stats.removed,
                     errors := total.errors + stats.errors,
                     total_size := total.total_size + stats.total_size }
      -- INSERT INTO index_state ... ON CONFLICT DO UPDATE (lines 100–107)
      let (now, st2) := utcnow st1
      let (fail, st3) := dbCall st2
      if fail then .err .connLost st3
      else
        let istate :=
          if st3.db.index_state.any (fun s => s.root_id = rid) then
            st3.db.index_state.map (fun s =>
              if s.root_id = rid then { s with last_full_scan_at := now } else s)
          else
            st3.db.index_state ++ [{ root_id := rid, last_full_scan_at := now }]
        let st4 := { st3 with db := { st3.db with index_state := istate } }
        let (cfail, st5) := dbCall st4  -- commit (line 108)
        if cfail then .err .connLost st5
        else scanRootsLoop hashFn fsOf force_hash rest total1 st5

/-- Step 2 of `rebuild_index` (lines 65–83): resolve the roots to scan —
the validated specific root, or all enabled roots after syncing the
configured ones. -/
def resolveRoots (cfgRoots : List (List String)) (specific_root_id : Option String)
    (st : St) : BodyOut (List (String × List String)) :=
  match specific_root_id with
  | some rid =>
    let (fail, st1) := dbCall st   -- SELECT root_id, path FROM roots WHERE root_id = ?
    if fail then .err .connLost st1
    else
      match st1.db.roots.find? (fun r => r.root_id = rid) with
      | none => .err (.notFound rid) st1   -- NotFoundError (line 74)
      | some row => .ok [(row.root_id, row.path)] st1
  | none =>
    match syncConfiguredRoots cfgRoots st with
    | .err e st1 => .err e st1
    | .ok _ st1 =>
      let (fail, st2) := dbCall st1  -- SELECT ... FROM roots WHERE enabled = 1
      if fail then .err .connLost st2
      else
        .ok ((st2.db.roots.filter (fun r => r.enabled)).map
              (fun r => (r.root_id, r.path))) st2

/-- The `try` block of `rebuild_index` (lines 64–132): resolve the roots to
scan, run the per-root loop, and finish the run record as Completed. -/
def rebuildBody (hashFn : HashFn) (fsOf : List String → FS)
    (cfgRoots : List (List String)) (specific_root_id : Option String)
    (force_hash : Bool) (run_id : Nat) (start_time : Nat) (st : St) :
    BodyOut RunResponse :=
  match resolveRoots cfgRoots specific_root_id st with
  | .err e st1 => .err e st1
  | .ok roots st1 =>
    match scanRootsLoop hashFn fsOf force_hash roots {} st1 with
    | .err e st2 => .err e st2
    | .ok total st2 =>
      let (end_time, st3) := utcnow st2  -- time.time() (line 110)
      let total1 := { total with duration_ms := end_time - start_time }
      -- UPDATE index_runs → Completed (lines 113–125)
      let (now, st4) := utcnow st3
      let (fail, st5) := dbCall st4
      if fail then .err .connLost st5
      else
        let st6 := setRuns st5 (st5.db.index_runs.map (fun r =>
          if r.index_run_id = run_id then
            { r with status := .completed, finished_at := some now,
                     stats_json := some (.runStats total1) }
          else r))
        let (cfail, st7) := dbCall st6  -- commit (line 126)
        if cfail then .err .connLost st7
        else .ok { run_id := run_id, status := .completed, started_at := start_time } st7

/-- The `except` handler of `rebuild_index` (lines 134–150): mark the run
Failed with the error in its stats, commit, and re-raise.  A failure of
the marking write or commit propagates instead (the handler itself
raised). -/
def failRun (run_id : Nat) (e : ErrKind) (st : St) : RebuildOut :=
  let (now, st1) := utcnow st
  let (fail, st2) := dbCall st1
  if fail then .err .connLost st2
  else
    let st3 := setRuns st2 (st2.db.index_runs.map (fun r =>
      if r.index_run_id = run_id then
        { r with status := .failed, finished_at := some now,
                 stats_json := some (.errorMsg e) }
      else r))
    let (cfail, st4) := dbCall st3
    if cfail then .err .connLost st4
    else .err e st4

/-- `IndexService.rebuild_index`.  The run record is created before the
`try` block, so a failure of the initial INSERT or commit propagates
without any Failed marking. -/
def rebuildIndex (hashFn : HashFn) (fsOf : List String → FS)
    (cfgRoots : List (List String)) (specific_root_id : Option String)
    (force_hash : Bool) (st : St) : RebuildOut :=
  let (run_id, st1) := freshId st      -- generate_index_run_id() (line 51)
  let (start_time, st2) := utcnow st1  -- time.time() (line 52)
  let (now0, st3) := utcnow st2        -- utcnow_iso() argument
  let (fail, st4) := dbCall st3        -- INSERT INTO index_runs (lines 55–61)
  if fail then .err .connLost st4
  else
    let st5 := setRuns st4 (st4.db.index_runs ++
      [{ index_run_id := run_id, kind := "full", started_at := some now0,
         status := .running, finished_at := none, stats_json := none }])
    let (cfail, st6) := dbCall st5     -- commit (line 62)
    if cfail then .err .connLost st6
    else
      match rebuildBody hashFn fsOf cfgRoots specific_root_id force_hash run_id start_time st6 with
      | .ok resp st7 => .ok resp st7
      | .err e st7 => failRun run_id e st7

/-- `IndexService.rescan` (lines 152–155): alias for `rebuild_index()`
with default arguments. -/
def rescan (hashFn : HashFn) (fsOf : List String → FS)
    (cfgRoots : List (List String)) (st : St) : RebuildOut :=
  rebuildIndex hashFn fsOf cfgRoots none false st

/-- The dictionary returned by `get_status`. -/
structure StatusResp where
  is_running : Bool
  current_run : Option IndexRunRow
  last_completed : Option IndexRunRow
  total_files : Nat
  total_roots : Nat
  deriving Repr, DecidableEq

/-- Outcome of `get_status`: the status dictionary, or a raise from one of
the two unguarded `index_runs` queries. -/
inductive StatusOut where
  | ok (s : StatusResp) (st : St)
  | err (st : St)
  deriving Repr, DecidableEq

/-- `SELECT * FROM index_runs WHERE status = completed ORDER BY finished_at
DESC LIMIT 1` — the completed row with the greatest `finished_at`
(SQLite leaves ties unordered; the model keeps the earliest such row). -/
def lastCompletedRow (runs : List IndexRunRow) : Option IndexRunRow :=
  (runs.filter (fun r => r.status = .completed)).foldl
    (fun acc r =>
      match acc with
      | none => some r
      | some a => if a.finished_at.getD 0 < r.finished_at.getD 0 then some r else some a)
    none

/-- `IndexService.get_status` (lines 157–185): the two `index_runs`
queries are unguarded; the two count queries are inside a `try` whose
handler resets both totals to 0. -/
def getStatus (st : St) : StatusOut :=
  let (f1, st1) := dbCall st    -- SELECT * FROM index_runs WHERE status = running
  if f1 then .err st1
  else
    let running := st1.db.index_runs.find? (fun r => r.status = .running)
    let (f2, st2) := dbCall st1 -- SELECT ... WHERE status = completed ORDER BY ...
    if f2 then .err st2
    else
      let last_completed := lastCompletedRow st2.db.index_runs
      -- try: the two count queries (lines 172–177)
      let (f3, st3) := dbCall st2
      if f3 then
        .ok { is_running := running.isSome, current_run := running,
              last_completed := last_completed, total_files := 0, total_roots := 0 } st3
      else
        let total_files := st3.db.files.length
        let (f4, st4) := dbCall st3
        if f4 then
          .ok { is_running := running.isSome, current_run := running,
                last_completed := last_completed, total_files := 0, total_roots := 0 } st4
        else
          .ok { is_running := running.isSome, current_run := running,
                last_completed := last_completed, total_files := total_files,
                total_roots := st4.db.roots.length } st4

/-! ## Projections and well-formedness -/

/-- The stats of a scan outcome (defaults on the raise branch). -/
def ScanOut.statsOf : ScanOut → ScanResult
  | .ok s _ => s
  | .err _ => {}

/-- The state a scan outcome carries. -/
def ScanOut.stOf : ScanOut → St
  | .ok _ st => st
  | .err st => st

/-- Whether a scan returned normally. -/
def ScanOut.isOk : ScanOut → Bool
  | .ok _ _ => true
  | .err _ => false

/-- The response of a rebuild outcome (dummy on the raise branch). -/
def RebuildOut.respOf : RebuildOut → RunResponse
  | .ok r _ => r
  | .err _ _ => { run_id := 0, status := .failed, started_at := 0 }

/-- The state a rebuild outcome carries. -/
def RebuildOut.stOf : RebuildOut → St
  | .ok _ st => st
  | .err _ st => st

/-- Whether a rebuild returned normally. -/
def RebuildOut.isOk : RebuildOut → Bool
  | .ok _ _ => true
  | .err _ _ => false

/-- The state a try-block outcome carries. -/
def BodyOut.stOf {α : Type} : BodyOut α → St
  | .ok _ st => st
  | .err _ st => st

/-- Whether `get_status` returned normally. -/
def StatusOut.isOk : StatusOut → Bool
  | .ok _ _ => true
  | .err _ => false

/-- The status dictionary of a `get_status` outcome (dummy on raise). -/
def StatusOut.respOf : StatusOut → StatusResp
  | .ok s _ => s
  | .err _ =>
    { is_running := false, current_run := none, last_completed := none,
      total_files := 0, total_roots := 0 }

/-- Well-formedness of the `files` table relative to the id generator:
file ids are unique, `(root_id, rel_path)` is unique, and every stored id
is below the generator counter (the generators only hand out fresh ids). -/
def filesWF (st : St) : Prop :=
  st.db.files.Pairwise (fun a b => a.file_id ≠ b.file_id) ∧
  st.db.files.Pairwise (fun a b => a.root_id = b.root_id → a.rel_path ≠ b.rel_path) ∧
  ∀ r ∈ st.db.files, r.file_id < st.idGen

/-- A record equal to `r` in every field except `last_seen_at`. -/
def refreshSeen (r : FileRecord) (t : Nat) : FileRecord :=
  { r with last_seen_at := t }

/-! ## Concrete scenario states used by counterexamples and witnesses -/

/-- A total hash oracle: hashing succeeds on every path. -/
def hashOracle : HashFn := fun segs => some ("h:" ++ joinSegs segs)

/-- A registered, enabled root `r1` at path `data`. -/
def rootR1 : RootRow := { root_id := "r1", path := ["data"], enabled := true }

/-- A pre-existing IndexRun stuck in Running status. -/
def runningRow99 : IndexRunRow :=
  { index_run_id := 99, kind := "full", started_at := some 0,
    status := .running, finished_at := none, stats_json := none }

/-- An already-indexed file `a.txt` under root `r1` (file_id 7). -/
def recA : FileRecord :=
  { file_id := 7, root_id := "r1", canonical_path := "data/a.txt",
    rel_path := "a.txt", size := 5, mtime_ns := 11,
    content_hash := some "h:data/a.txt", indexed_at := 1, last_seen_at := 2,
    is_dir := false, ext := ".txt", mime := none }

/-- A walk seeing the single file `a.txt` (5 bytes, mtime 11). -/
def fsOnlyA : FS :=
  [{ parentRel := [], dirs := [],
     files := [{ name := "a.txt", stat := some { size := 5, mtime_ns := 11 } }] }]

/-- C1: database with a Running run already present, no files. -/
def c1St : St :=
  { db := { files := [], roots := [rootR1], index_runs := [runningRow99],
            index_state := [], file_aliases := [], opIndex := 0, failOps := [] },
    clock := 100, idGen := 10 }

/-- C1: the same state, with the driver failing at operations 9 and 10 —
the run-finishing UPDATE and the Failed-marking UPDATE of the handler. -/
def c1StFail : St :=
  { c1St with db := { c1St.db with failOps := [9, 10] } }

/-- C2: database in which `a.txt` is indexed as file_id 7. -/
def c2St : St :=
  { db := { files := [recA], roots := [rootR1], index_runs := [],
            index_state := [], file_aliases := [], opIndex := 0, failOps := [] },
    clock := 100, idGen := 10 }

/-- C2: the walk after the on-disk rename `a.txt` → `b.txt`
(same size 5 and mtime 11, i.e. metadata preserved by the rename). -/
def c2Fs : FS :=
  [{ parentRel := [], dirs := [],
     files := [{ name := "b.txt", stat := some { size := 5, mtime_ns := 11 } }] }]

/-- C3: empty database with root `r1`. -/
def c3St : St :=
  { db := { files := [], roots := [rootR1], index_runs := [],
            index_state := [], file_aliases := [], opIndex := 0, failOps := [] },
    clock := 100, idGen := 10 }

/-- C3: root containing `a.txt` (5 bytes) and `sub/b.txt` (10 bytes) —
the spec's scenario with two files and one subdirectory. -/
def c3Fs : FS :=
  [{ parentRel := [], dirs := ["sub"],
     files := [{ name := "a.txt", stat := some { size := 5, mtime_ns := 11 } }] },
   { parentRel := ["sub"], dirs := [],
     files := [{ name := "b.txt", stat := some { size := 10, mtime_ns := 12 } }] }]

/-- C4: empty database with root `r1`, driver failing at operation 4 only —
the per-file INSERT issued by `_upsert_file` during the scan of `r1`
(a transient database failure during the batch writes). -/
def c4St : St :=
  { db := { files := [], roots := [rootR1], index_runs := [],
            index_state := [], file_aliases := [], opIndex := 0, failOps := [4] },
    clock := 100, idGen := 10 }

/-- C4 witness: the same database without failure injection. -/
def c4WitnessSt : St :=
  { db := { files := [], roots := [rootR1], index_runs := [],
            index_state := [], file_aliases := [], opIndex := 0, failOps := [] },
    clock := 100, idGen := 10 }

/-- C5: a walk with a file of 999,999 bytes and a file of exactly
1,000,000 bytes (the hashing size ceiling of `_upsert_file`). -/
def c5Fs : FS :=
  [{ parentRel := [], dirs := [],
     files := [{ name := "small.bin", stat := some { size := 999999, mtime_ns := 1 } },
               { name := "big.bin", stat := some { size := 1000000, mtime_ns := 2 } }] }]

/-- C5: empty database. -/
def c5St : St :=
  { db := { files := [], roots := [], index_runs := [],
            index_state := [], file_aliases := [], opIndex := 0, failOps := [] },
    clock := 0, idGen := 0 }

/-- C10: state whose driver fails at the very next operation — the
unguarded `SELECT * FROM index_runs WHERE status = running` query. -/
def c10StFail : St :=
  { db := { files := [], roots := [rootR1], index_runs := [runningRow99],
            index_state := [], file_aliases := [], opIndex := 0, failOps := [0] },
    clock := 100, idGen := 10 }

/-- C6 witness: the walk entry for the unchanged `a.txt`. -/
def c6Entry : Entry :=
  { parentRel := [], name := "a.txt", stat := some { size := 5, mtime_ns := 11 } }

/-- C7 witness: the walk after `a.txt` was deleted on disk (the root
directory itself is still yielded, with no files). -/
def c7Fs : FS := [{ parentRel := [], dirs := [], files := [] }]

/-- The state after one driver call: only the operation counter advances. -/
def bumpOp (st : St) : St :=
  { st with db := { st.db with opIndex := st.db.opIndex + 1 } }

/-- State preservation on the tables the scan never writes (everything
except `files`), and on the failure-injection list. -/
def framePres (a b : St) : Prop :=
  b.db.roots = a.db.roots ∧ b.db.index_runs = a.db.index_runs ∧
  b.db.index_state = a.db.index_state ∧ b.db.file_aliases = a.db.file_aliases ∧
  b.db.failOps = a.db.failOps

/-! ## Basic lemmas -/

theorem nilContains {α : Type} [BEq α] (a : α) : ([] : List α).contains a = false := rfl

theorem framePres_refl (a : St) : framePres a a := ⟨rfl, rfl, rfl, rfl, rfl⟩

theorem framePres_trans {a b c : St} (h1 : framePres a b) (h2 : framePres b c) :
    framePres a c := by
  obtain ⟨r1, r2, r3, r4, r5⟩ := h1
  obtain ⟨s1, s2, s3, s4, s5⟩ := h2
  exact ⟨s1.trans r1, s2.trans r2, s3.trans r3, s4.trans r4, s5.trans r5⟩

theorem upsertFile_frame (hashFn : HashFn) (rid : String) (rp segs : List String)
    (fstat : FileStat) (exid : Option Nat) (fh : Bool) (st : St) :
    framePres st (upsertFile hashFn rid rp segs fstat exid fh st).2 := by
  cases exid <;>
    simp only [upsertFile, utcnow, freshId, dbCall, setFiles] <;>
    split <;> exact ⟨rfl, rfl, rfl, rfl, rfl⟩

theorem updateLastSeen_frame (fid : Nat) (st : St) :
    framePres st (updateLastSeen fid st).2 := by
  simp only [updateLastSeen, utcnow, dbCall, setFiles]
  split <;> exact ⟨rfl, rfl, rfl, rfl, rfl⟩

theorem framePres_of_update {f : Nat} {st st1 : St} {b : Bool}
    (h : updateLastSeen f st = (b, st1)) : framePres st st1 := by
  have hf := updateLastSeen_frame f st
  rw [h] at hf
  exact hf

theorem framePres_of_upsert {hashFn : HashFn} {rid : String} {rp segs : List String}
    {fstat : FileStat} {exid : Option Nat} {fh : Bool} {st st1 : St} {b : Bool}
    (h : upsertFile hashFn rid rp segs fstat exid fh st = (b, st1)) : framePres st st1 := by
  have hf := upsertFile_frame hashFn rid rp segs fstat exid fh st
  rw [h] at hf
  exact hf

theorem processEntry_frame (hashFn : HashFn) (rid : String) (rp : List String)
    (existing : List ExRow) (fh : Bool) (acc : ScanAcc) (e : Entry) :
    framePres acc.st (processEntry hashFn rid rp existing fh acc e).st := by
  dsimp only [processEntry]
  repeat' split
  all_goals first
    | exact framePres_refl _
    | (apply framePres_of_update <;> assumption)
    | (apply framePres_of_upsert <;> assumption)

theorem foldl_frame (hashFn : HashFn) (rid : String) (rp : List String)
    (existing : List ExRow) (fh : Bool) :
    ∀ (es : List Entry) (acc : ScanAcc),
      framePres acc.st ((es.foldl (processEntry hashFn rid rp existing fh) acc).st)
  | [], _ => framePres_refl _
  | e :: es, acc =>
    framePres_trans (processEntry_frame hashFn rid rp existing fh acc e)
      (foldl_frame hashFn rid rp existing fh es _)

theorem processEntry_seen (hashFn : HashFn) (rid : String) (rp : List String)
    (existing : List ExRow) (fh : Bool) (acc : ScanAcc) (e : Entry) :
    (processEntry hashFn rid rp existing fh acc e).seen = entryRel e :: acc.seen := by
  dsimp only [processEntry, entryRel]
  repeat' split
  all_goals rfl

theorem foldl_seen (hashFn : HashFn) (rid : String) (rp : List String)
    (existing : List ExRow) (fh : Bool) :
    ∀ (es : List Entry) (acc : ScanAcc),
      ((es.foldl (processEntry hashFn rid rp existing fh) acc).seen) =
        (es.map entryRel).reverse ++ acc.seen
  | [], _ => by simp
  | e :: es, acc => by
    have ih := foldl_seen hashFn rid rp existing fh es
      (processEntry hashFn rid rp existing fh acc e)
    simp only [List.foldl_cons, ih, processEntry_seen, List.map_cons, List.reverse_cons,
      List.append_assoc, List.singleton_append]

/-! ## Tracking records by file id -/

theorem filter_fid_single (l : List FileRecord) (r0 : FileRecord)
    (hp : l.Pairwise (fun a b => a.file_id ≠ b.file_id)) (hm : r0 ∈ l) :
    l.filter (fun r => r.file_id == r0.file_id) = [r0] := by
  induction l with
  | nil => cases hm
  | cons a t ih =>
    rcases List.pairwise_cons.mp hp with ⟨ha, ht⟩
    rcases List.mem_cons.mp hm with rfl | hmt
    · have hnil : t.filter (fun r => r.file_id == r0.file_id) = [] := by
        rw [List.filter_eq_nil_iff]
        intro b hb
        simp only [beq_iff_eq]
        exact fun hbe => ha b hb hbe.symm
      simp [List.filter_cons, hnil]
    · have hane : (a.file_id == r0.file_id) = false := by
        simp only [beq_eq_false_iff_ne, ne_eq]
        exact ha r0 hmt
      simp [List.filter_cons, hane, ih ht hmt]

theorem fid_inj {l : List FileRecord}
    (hp : l.Pairwise (fun a b => a.file_id ≠ b.file_id)) :
    ∀ a ∈ l, ∀ b ∈ l, a.file_id = b.file_id → a = b := by
  have hsym : Symmetric (fun (a b : FileRecord) => a.file_id ≠ b.file_id) := by
    intro x y h e
    exact h (Eq.symm e)
  intro a ha b hb heq
  by_contra hne
  exact List.Pairwise.forall hsym hp ha hb hne heq

theorem rootrel_inj {l : List FileRecord}
    (hp : l.Pairwise (fun a b => a.root_id = b.root_id → a.rel_path ≠ b.rel_path)) :
    ∀ a ∈ l, ∀ b ∈ l, a.root_id = b.root_id → a.rel_path = b.rel_path → a = b := by
  have hsym : Symmetric (fun (a b : FileRecord) => a.root_id = b.root_id → a.rel_path ≠ b.rel_path) := by
    intro x y h hr he
    exact h (Eq.symm hr) (Eq.symm he)
  intro a ha b hb hroot hrel
  by_contra hne
  exact List.Pairwise.forall hsym hp ha hb hne hroot hrel

theorem filter_fid_map_other (l : List FileRecord) (f g0 : Nat) (hne : g0 ≠ f)
    (upd : FileRecord → FileRecord) (hupd : ∀ r, (upd r).file_id = r.file_id) :
    (l.map (fun r => if r.file_id = g0 then upd r else r)).filter (fun r => r.file_id == f)
      = l.filter (fun r => r.file_id == f) := by
  induction l with
  | nil => rfl
  | cons a t ih =>
    simp only [List.map_cons, List.filter_cons]
    by_cases hg : a.file_id = g0
    · rw [if_pos hg]
      have h1 : ((upd a).file_id == f) = false := by
        simp only [beq_eq_false_iff_ne, ne_eq, hupd]
        rw [hg]
        exact hne
      have h2 : (a.file_id == f) = false := by
        simp only [beq_eq_false_iff_ne, ne_eq]
        rw [hg]
        exact hne
      simp [h1, h2, ih]
    · rw [if_neg hg]
      cases h : (a.file_id == f) <;> simp [h, ih]

theorem filter_fid_map_self (l : List FileRecord) (f : Nat)
    (upd : FileRecord → FileRecord) (hupd : ∀ r, (upd r).file_id = r.file_id) :
    (l.map (fun r => if r.file_id = f then upd r else r)).filter (fun r => r.file_id == f)
      = (l.filter (fun r => r.file_id == f)).map upd := by
  induction l with
  | nil => rfl
  | cons a t ih =>
    simp only [List.map_cons, List.filter_cons]
    by_cases haf : a.file_id = f
    · have h1 : ((upd a).file_id == f) = true := by
        simp only [beq_iff_eq, hupd, haf]
      simp [haf, h1, ih]
    · have h2 : (a.file_id == f) = false := by
        simp only [beq_eq_false_iff_ne, ne_eq]
        exact haf
      simp [haf, h2, ih]

theorem filter_fid_after_del (l : List FileRecord) (f g : Nat) (hne : g ≠ f) :
    (l.filter (fun r => r.file_id ≠ g)).filter (fun r => r.file_id == f)
      = l.filter (fun r => r.file_id == f) := by
  rw [List.filter_filter]
  refine List.filter_congr ?_
  intro x _
  by_cases hx : x.file_id = f
  · have hfg : ¬ f = g := fun hh => hne (Eq.symm hh)
    simp [hx, hfg]
  · simp [hx]

theorem filter_fid_append_new (l : List FileRecord) (f : Nat) (nr : FileRecord)
    (hne : nr.file_id ≠ f) :
    (l ++ [nr]).filter (fun r => r.file_id == f) = l.filter (fun r => r.file_id == f) := by
  have h : (nr.file_id == f) = false := by
    simp only [beq_eq_false_iff_ne, ne_eq]
    exact hne
  simp [List.filter_append, h]

theorem updateLastSeen_inv {f0 : Nat} {st st1 : St} {b : Bool}
    (h : updateLastSeen f0 st = (b, st1)) :
    st1.idGen = st.idGen ∧
    (st1.db.files = st.db.files ∨
     st1.db.files = st.db.files.map
       (fun r => if r.file_id = f0 then { r with last_seen_at := st.clock } else r)) := by
  dsimp only [updateLastSeen, utcnow, dbCall, setFiles] at h
  split at h <;> (injection h with h1 h2; subst h2)
  · exact ⟨rfl, Or.inl rfl⟩
  · exact ⟨rfl, Or.inr rfl⟩

theorem upsertFile_some_inv {hashFn : HashFn} {rid : String} {rp segs : List String}
    {fstat : FileStat} {g : Nat} {fh : Bool} {st st1 : St} {b : Bool}
    (h : upsertFile hashFn rid rp segs fstat (some g) fh st = (b, st1)) :
    st1.idGen = st.idGen ∧
    (st1.db.files = st.db.files ∨
     ∃ upd : FileRecord → FileRecord, (∀ r, (upd r).file_id = r.file_id) ∧
       st1.db.files = st.db.files.map (fun r => if r.file_id = g then upd r else r)) := by
  dsimp only [upsertFile, utcnow, freshId, dbCall, setFiles] at h
  split at h <;> (injection h with h1 h2; subst h2)
  · exact ⟨rfl, Or.inl rfl⟩
  · refine ⟨rfl, Or.inr ⟨fun r =>
      { r with size := fstat.size, mtime_ns := fstat.mtime_ns,
               content_hash := computeContentHash hashFn fh rp segs fstat.size,
               last_seen_at := st.clock, indexed_at := st.clock + 1, mime := none },
      fun r => rfl, rfl⟩⟩

theorem upsertFile_none_inv {hashFn : HashFn} {rid : String} {rp segs : List String}
    {fstat : FileStat} {fh : Bool} {st st1 : St} {b : Bool}
    (h : upsertFile hashFn rid rp segs fstat none fh st = (b, st1)) :
    st.idGen ≤ st1.idGen ∧
    (st1.db.files = st.db.files ∨
     ∃ nr : FileRecord, nr.file_id = st.idGen ∧ st1.db.files = st.db.files ++ [nr]) := by
  dsimp only [upsertFile, utcnow, freshId, dbCall, setFiles] at h
  split at h <;> (injection h with h1 h2; subst h2)
  · exact ⟨Nat.le_succ _, Or.inl rfl⟩
  · exact ⟨Nat.le_succ _, Or.inr ⟨_, rfl, rfl⟩⟩

theorem processEntry_fid (hashFn : HashFn) (rid : String) (rp : List String)
    (existing : List ExRow) (fh : Bool) (f : Nat) (acc : ScanAcc) (e : Entry)
    (hlk : ∀ ex1, dictLookup existing (entryRel e) = some ex1 → ex1.file_id ≠ f)
    (hb : f < acc.st.idGen) :
    ((processEntry hashFn rid rp existing fh acc e).st.db.files.filter (fun r => r.file_id == f)
       = acc.st.db.files.filter (fun r => r.file_id == f))
    ∧ acc.st.idGen ≤ (processEntry hashFn rid rp existing fh acc e).st.idGen := by
  dsimp only [processEntry]
  split
  · exact ⟨rfl, Nat.le_refl _⟩
  · rename_i fstat hstat
    split
    · rename_i ex hdict
      have hne : ex.file_id ≠ f := hlk ex hdict
      split
      · split <;>
          (rename_i st1 heq
           obtain ⟨hid, hfiles⟩ := updateLastSeen_inv heq
           refine ⟨?_, le_of_eq (Eq.symm hid)⟩
           rcases hfiles with hsame | hmap
           · rw [hsame]
           · rw [hmap]
             exact filter_fid_map_other _ f ex.file_id hne _ (fun r => rfl))
      · split <;>
          (rename_i st1 heq
           obtain ⟨hid, hfiles⟩ := upsertFile_some_inv heq
           refine ⟨?_, le_of_eq (Eq.symm hid)⟩
           rcases hfiles with hsame | ⟨upd, hupd, hmap⟩
           · rw [hsame]
           · rw [hmap]
             exact filter_fid_map_other _ f ex.file_id hne upd hupd)
    · split <;>
        (rename_i st1 heq
         obtain ⟨hle, hfiles⟩ := upsertFile_none_inv heq
         refine ⟨?_, hle⟩
         rcases hfiles with hsame | ⟨nr, hnr, happ⟩
         · rw [hsame]
         · rw [happ]
           refine filter_fid_append_new _ f nr ?_
           rw [hnr]
           exact Nat.ne_of_gt hb)

theorem foldl_fid (hashFn : HashFn) (rid : String) (rp : List String)
    (existing : List ExRow) (fh : Bool) (f : Nat) :
    ∀ (es : List Entry) (acc : ScanAcc),
      (∀ e ∈ es, ∀ ex1, dictLookup existing (entryRel e) = some ex1 → ex1.file_id ≠ f) →
      f < acc.st.idGen →
      (((es.foldl (processEntry hashFn rid rp existing fh) acc).st.db.files.filter
          (fun r => r.file_id == f))
         = acc.st.db.files.filter (fun r => r.file_id == f))
      ∧ acc.st.idGen ≤ ((es.foldl (processEntry hashFn rid rp existing fh) acc).st.idGen)
  | [], acc, _, _ => ⟨rfl, Nat.le_refl _⟩
  | e :: es, acc, hall, hb => by
    have hstep := processEntry_fid hashFn rid rp existing fh f acc e
      (hall e (List.mem_cons_self e es)) hb
    have hb2 : f < (processEntry hashFn rid rp existing fh acc e).st.idGen :=
      Nat.lt_of_lt_of_le hb hstep.2
    have ih := foldl_fid hashFn rid rp existing fh f es
      (processEntry hashFn rid rp existing fh acc e)
      (fun x hx => hall x (List.mem_cons_of_mem e hx)) hb2
    exact ⟨by rw [List.foldl_cons, ih.1, hstep.1],
           by rw [List.foldl_cons]; exact Nat.le_trans hstep.2 ih.2⟩

/-! ## Dict lemmas -/

theorem dictInsert_mem {d : List ExRow} {r x : ExRow} (h : x ∈ dictInsert d r) :
    x ∈ d ∨ x = r := by
  unfold dictInsert at h
  split at h
  · rcases List.mem_map.mp h with ⟨y, hy, hxy⟩
    by_cases hyr : y.rel_path = r.rel_path
    · right
      rw [if_pos hyr] at hxy
      exact hxy.symm
    · left
      rw [if_neg hyr] at hxy
      rw [← hxy]
      exact hy
  · rcases List.mem_append.mp h with hy | hy
    · exact Or.inl hy
    · exact Or.inr (List.mem_singleton.mp hy)

theorem buildDict_subset {rows : List ExRow} {x : ExRow} (h : x ∈ buildDict rows) :
    x ∈ rows := by
  unfold buildDict at h
  suffices haux : ∀ (rs : List ExRow) (acc : List ExRow),
      x ∈ rs.foldl dictInsert acc → x ∈ acc ∨ x ∈ rs by
    rcases haux rows [] h with hc | hc
    · cases hc
    · exact hc
  intro rs
  induction rs with
  | nil => intro acc hx; exact Or.inl hx
  | cons r rest ih =>
    intro acc hx
    rcases ih (dictInsert acc r) hx with hc | hc
    · rcases dictInsert_mem hc with hc2 | hc2
      · exact Or.inl hc2
      · exact Or.inr (hc2 ▸ List.mem_cons_self r rest)
    · exact Or.inr (List.mem_cons_of_mem r hc)

theorem dictInsert_key_keep {d : List ExRow} (r : ExRow) {k : String}
    (h : ∃ x ∈ d, x.rel_path = k) : ∃ x ∈ dictInsert d r, x.rel_path = k := by
  obtain ⟨y, hy, hyk⟩ := h
  unfold dictInsert
  split
  · by_cases hyr : y.rel_path = r.rel_path
    · refine ⟨r, List.mem_map.mpr ⟨y, hy, ?_⟩, ?_⟩
      · rw [if_pos hyr]
      · rw [← hyr, hyk]
    · refine ⟨y, List.mem_map.mpr ⟨y, hy, ?_⟩, hyk⟩
      rw [if_neg hyr]
  · exact ⟨y, List.mem_append_left _ hy, hyk⟩

theorem dictInsert_key_new (d : List ExRow) (r : ExRow) :
    ∃ x ∈ dictInsert d r, x.rel_path = r.rel_path := by
  unfold dictInsert
  split
  · rename_i hany
    obtain ⟨y, hy, hyr⟩ := List.any_eq_true.mp hany
    have hyr2 : y.rel_path = r.rel_path := of_decide_eq_true hyr
    refine ⟨r, List.mem_map.mpr ⟨y, hy, ?_⟩, rfl⟩
    rw [if_pos hyr2]
  · exact ⟨r, List.mem_append_right _ (List.mem_singleton.mpr rfl), rfl⟩

theorem buildDict_key_mem {rows : List ExRow} {k : String}
    (h : ∃ x ∈ rows, x.rel_path = k) : ∃ x ∈ buildDict rows, x.rel_path = k := by
  unfold buildDict
  suffices haux : ∀ (rs : List ExRow) (acc : List ExRow),
      ((∃ x ∈ acc, x.rel_path = k) ∨ (∃ x ∈ rs, x.rel_path = k)) →
      ∃ x ∈ rs.foldl dictInsert acc, x.rel_path = k by
    exact haux rows [] (Or.inr h)
  intro rs
  induction rs with
  | nil =>
    intro acc hx
    rcases hx with hc | ⟨x, hx, _⟩
    · exact hc
    · cases hx
  | cons r rest ih =>
    intro acc hx
    refine ih (dictInsert acc r) ?_
    rcases hx with hc | ⟨x, hx, hxk⟩
    · exact Or.inl (dictInsert_key_keep r hc)
    · rcases List.mem_cons.mp hx with rfl | hx2
      · exact Or.inl (hxk ▸ dictInsert_key_new acc x)
      · exact Or.inr ⟨x, hx2, hxk⟩

theorem dictLookup_some_facts {d : List ExRow} {k : String} {x : ExRow}
    (h : dictLookup d k = some x) : x ∈ d ∧ x.rel_path = k := by
  unfold dictLookup at h
  refine ⟨List.mem_of_find?_eq_some h, ?_⟩
  have := List.find?_some h
  exact of_decide_eq_true this

theorem dictLookup_isSome {d : List ExRow} {k : String}
    (h : ∃ x ∈ d, x.rel_path = k) : ∃ x, dictLookup d k = some x := by
  obtain ⟨y, hy, hyk⟩ := h
  unfold dictLookup
  rcases hfind : List.find? (fun x => decide (x.rel_path = k)) d with _ | z
  · exfalso
    have := List.find?_eq_none.mp hfind y hy
    exact this (decide_eq_true hyk)
  · exact ⟨z, hfind⟩

/-! ## No-failure equations and the unchanged-entry step -/

theorem dbCall_noFail (st : St) (hnf : st.db.failOps = []) :
    dbCall st = (false, bumpOp st) := by
  unfold dbCall bumpOp
  rw [hnf]
  rfl

theorem dbCall_okc (st : St) (h : st.db.failOps.contains st.db.opIndex = false) :
    dbCall st = (false, bumpOp st) := by
  unfold dbCall bumpOp
  rw [h]

theorem dbCall_fail (st : St) (h : st.db.failOps.contains st.db.opIndex = true) :
    dbCall st = (true, bumpOp st) := by
  unfold dbCall bumpOp
  rw [h]

theorem updateLastSeen_ok (f0 : Nat) (st : St) (hnf : st.db.failOps = []) :
    ∃ st1, updateLastSeen f0 st = (false, st1) ∧
      st1.db.files = st.db.files.map
        (fun r => if r.file_id = f0 then { r with last_seen_at := st.clock } else r) ∧
      st1.idGen = st.idGen ∧ st1.db.failOps = [] := by
  dsimp only [updateLastSeen, utcnow]
  rw [dbCall_noFail { db := st.db, clock := st.clock + 1, idGen := st.idGen } hnf]
  dsimp only []
  rw [if_neg Bool.false_ne_true]
  dsimp only [setFiles, bumpOp]
  exact ⟨_, rfl, rfl, rfl, hnf⟩

theorem processEntry_hit (hashFn : HashFn) (rid : String) (rp : List String)
    (existing : List ExRow) (acc : ScanAcc) (e : Entry) (fstat : FileStat) (ex0 : ExRow)
    (hstat : e.stat = some fstat)
    (hdict : dictLookup existing (entryRel e) = some ex0)
    (hsz : ex0.size = fstat.size) (hmt : ex0.mtime_ns = fstat.mtime_ns)
    (hnf : acc.st.db.failOps = []) :
    (processEntry hashFn rid rp existing false acc e).st.db.files
      = acc.st.db.files.map
          (fun r => if r.file_id = ex0.file_id then { r with last_seen_at := acc.st.clock } else r)
    ∧ (processEntry hashFn rid rp existing false acc e).st.idGen = acc.st.idGen := by
  simp only [entryRel] at hdict
  obtain ⟨st1, heq, hfiles, hid, _⟩ := updateLastSeen_ok ex0.file_id acc.st hnf
  dsimp only [processEntry]
  rw [hstat]
  dsimp only []
  rw [hdict]
  dsimp only []
  rw [if_pos ⟨rfl, hsz, hmt⟩, heq]
  exact ⟨hfiles, hid⟩

/-! ## Deletion-pass lemmas -/

theorem deleteMissing_keeps (f : Nat) :
    ∀ (rows : List ExRow) (st : St) (seen : List String),
      st.db.failOps = [] →
      (∀ r ∈ rows, seen.contains r.rel_path = false → r.file_id ≠ f) →
      ∃ n st1, deleteMissing st rows seen = (false, n, st1) ∧
        st1.db.files.filter (fun r => r.file_id == f)
          = st.db.files.filter (fun r => r.file_id == f) ∧
        st1.db.failOps = []
  | [], st, seen, hnf, _ => ⟨0, st, rfl, rfl, hnf⟩
  | r :: rest, st, seen, hnf, hall => by
    dsimp only [deleteMissing]
    cases hseen : seen.contains r.rel_path with
    | true =>
      rw [if_pos rfl]
      exact deleteMissing_keeps f rest st seen hnf
        (fun x hx => hall x (List.mem_cons_of_mem r hx))
    | false =>
      rw [if_neg Bool.false_ne_true]
      rw [dbCall_noFail st hnf]
      have hne : r.file_id ≠ f := hall r (List.mem_cons_self r rest) hseen
      obtain ⟨n, st3, hrec, hfil, hnf3⟩ := deleteMissing_keeps f rest
        (setFiles (bumpOp st) ((bumpOp st).db.files.filter (fun fl => fl.file_id ≠ r.file_id)))
        seen hnf (fun x hx => hall x (List.mem_cons_of_mem r hx))
      rw [hrec]
      refine ⟨n + 1, st3, rfl, ?_, hnf3⟩
      rw [hfil]
      exact filter_fid_after_del st.db.files f r.file_id hne

theorem deleteMissing_absent (f : Nat) :
    ∀ (rows : List ExRow) (st : St) (seen : List String),
      st.db.failOps = [] →
      (∀ r ∈ st.db.files, r.file_id ≠ f) →
      ∃ n st1, deleteMissing st rows seen = (false, n, st1) ∧
        (∀ r ∈ st1.db.files, r.file_id ≠ f) ∧ st1.db.failOps = []
  | [], st, seen, hnf, habs => ⟨0, st, rfl, habs, hnf⟩
  | r :: rest, st, seen, hnf, habs => by
    dsimp only [deleteMissing]
    cases hseen : seen.contains r.rel_path with
    | true =>
      rw [if_pos rfl]
      exact deleteMissing_absent f rest st seen hnf habs
    | false =>
      rw [if_neg Bool.false_ne_true]
      rw [dbCall_noFail st hnf]
      have habs2 : ∀ x ∈ (bumpOp st).db.files.filter (fun fl => fl.file_id ≠ r.file_id),
          x.file_id ≠ f := fun x hx => habs x (List.mem_of_mem_filter hx)
      obtain ⟨n, st3, hrec, habs3, hnf3⟩ := deleteMissing_absent f rest
        (setFiles (bumpOp st) ((bumpOp st).db.files.filter (fun fl => fl.file_id ≠ r.file_id)))
        seen hnf habs2
      rw [hrec]
      exact ⟨n + 1, st3, rfl, habs3, hnf3⟩

theorem deleteMissing_kills (f : Nat) :
    ∀ (rows : List ExRow) (st : St) (seen : List String),
      st.db.failOps = [] →
      (∃ r ∈ rows, seen.contains r.rel_path = false ∧ r.file_id = f) →
      ∃ n st1, deleteMissing st rows seen = (false, n, st1) ∧
        (∀ r ∈ st1.db.files, r.file_id ≠ f) ∧ st1.db.failOps = []
  | [], _, _, _, hin => by
    obtain ⟨r, hr, _⟩ := hin
    cases hr
  | r :: rest, st, seen, hnf, hin => by
    dsimp only [deleteMissing]
    cases hseen : seen.contains r.rel_path with
    | true =>
      rw [if_pos rfl]
      obtain ⟨x, hx, hxs, hxf⟩ := hin
      rcases List.mem_cons.mp hx with rfl | hx2
      · rw [hseen] at hxs
        cases hxs
      · exact deleteMissing_kills f rest st seen hnf ⟨x, hx2, hxs, hxf⟩
    | false =>
      rw [if_neg Bool.false_ne_true]
      rw [dbCall_noFail st hnf]
      by_cases hrf : r.file_id = f
      · have habs2 : ∀ x ∈ (bumpOp st).db.files.filter (fun fl => fl.file_id ≠ r.file_id),
            x.file_id ≠ f := by
          intro x hx
          have hxp := List.of_mem_filter hx
          rw [hrf] at hxp
          exact of_decide_eq_true hxp
        obtain ⟨n, st3, hrec, habs3, hnf3⟩ := deleteMissing_absent f rest
          (setFiles (bumpOp st) ((bumpOp st).db.files.filter (fun fl => fl.file_id ≠ r.file_id)))
          seen hnf habs2
        rw [hrec]
        exact ⟨n + 1, st3, rfl, habs3, hnf3⟩
      · obtain ⟨x, hx, hxs, hxf⟩ := hin
        rcases List.mem_cons.mp hx with rfl | hx2
        · exact absurd hxf hrf
        · obtain ⟨n, st3, hrec, habs3, hnf3⟩ := deleteMissing_kills f rest
            (setFiles (bumpOp st) ((bumpOp st).db.files.filter (fun fl => fl.file_id ≠ r.file_id)))
            seen hnf ⟨x, hx2, hxs, hxf⟩
          rw [hrec]
          exact ⟨n + 1, st3, rfl, habs3, hnf3⟩

/-! ## Dict facts under well-formedness -/

theorem dict_row_eq (st : St) (root_id : String) (r0 : FileRecord)
    (hfid : st.db.files.Pairwise (fun a b => a.file_id ≠ b.file_id))
    (hrelwf : st.db.files.Pairwise (fun a b => a.root_id = b.root_id → a.rel_path ≠ b.rel_path))
    (hmem : r0 ∈ st.db.files) (hroot : r0.root_id = root_id) :
    ∀ x ∈ buildDict ((st.db.files.filter (fun r => r.root_id = root_id)).map projectEx),
      (x.rel_path = r0.rel_path → x = projectEx r0) ∧
      (x.file_id = r0.file_id → x = projectEx r0) := by
  intro x hx
  have hxrows := buildDict_subset hx
  obtain ⟨b, hb, hbx⟩ := List.mem_map.mp hxrows
  have hbmem : b ∈ st.db.files := List.mem_of_mem_filter hb
  have hbroot : b.root_id = root_id := of_decide_eq_true (List.mem_filter.mp hb).2
  constructor
  · intro hxr
    have hbrel : b.rel_path = r0.rel_path := by
      rw [← hxr, ← hbx]
      rfl
    have hbeq : b = r0 :=
      rootrel_inj hrelwf b hbmem r0 hmem (hbroot.trans hroot.symm) hbrel
    rw [← hbx, hbeq]
  · intro hxf
    have hbfid : b.file_id = r0.file_id := by
      rw [← hxf, ← hbx]
      rfl
    have hbeq : b = r0 := fid_inj hfid b hbmem r0 hmem hbfid
    rw [← hbx, hbeq]

theorem dict_lookup_self (st : St) (root_id : String) (r0 : FileRecord)
    (hfid : st.db.files.Pairwise (fun a b => a.file_id ≠ b.file_id))
    (hrelwf : st.db.files.Pairwise (fun a b => a.root_id = b.root_id → a.rel_path ≠ b.rel_path))
    (hmem : r0 ∈ st.db.files) (hroot : r0.root_id = root_id) :
    dictLookup (buildDict ((st.db.files.filter (fun r => r.root_id = root_id)).map projectEx))
      r0.rel_path = some (projectEx r0) := by
  have hproj : projectEx r0 ∈ (st.db.files.filter (fun r => r.root_id = root_id)).map projectEx :=
    List.mem_map.mpr ⟨r0, List.mem_filter.mpr ⟨hmem, decide_eq_true hroot⟩, rfl⟩
  obtain ⟨ex0, hex0⟩ := @dictLookup_isSome _ r0.rel_path
    (@buildDict_key_mem _ r0.rel_path ⟨projectEx r0, hproj, rfl⟩)
  obtain ⟨hex0mem, hex0rel⟩ := dictLookup_some_facts hex0
  have := (dict_row_eq st root_id r0 hfid hrelwf hmem hroot ex0 hex0mem).1 hex0rel
  rw [hex0, this]

/-! ## Scan pipeline characterization under a never-failing driver -/

theorem bumpOp_files (st : St) : (bumpOp st).db.files = st.db.files := rfl

theorem bumpOp_failOps (st : St) : (bumpOp st).db.failOps = st.db.failOps := rfl

theorem bumpOp_idGen (st : St) : (bumpOp st).idGen = st.idGen := rfl

theorem mem_contains_true {α : Type} [BEq α] [LawfulBEq α] {a : α} {l : List α}
    (h : a ∈ l) : l.contains a = true := by
  induction l with
  | nil => cases h
  | cons b t ih =>
    rcases List.mem_cons.mp h with rfl | ht
    · simp [List.contains_cons]
    · simp only [List.contains_cons, ih ht, Bool.or_true]

theorem deleteMissing_noFail :
    ∀ (rows : List ExRow) (st : St) (seen : List String),
      st.db.failOps = [] →
      ∃ n st1, deleteMissing st rows seen = (false, n, st1) ∧ st1.db.failOps = []
  | [], st, _, hnf => ⟨0, st, rfl, hnf⟩
  | r :: rest, st, seen, hnf => by
    dsimp only [deleteMissing]
    cases hseen : seen.contains r.rel_path with
    | true =>
      rw [if_pos rfl]
      exact deleteMissing_noFail rest st seen hnf
    | false =>
      rw [if_neg Bool.false_ne_true]
      rw [dbCall_noFail st hnf]
      obtain ⟨n, st3, hrec, hnf3⟩ := deleteMissing_noFail rest
        (setFiles (bumpOp st) ((bumpOp st).db.files.filter (fun fl => fl.file_id ≠ r.file_id)))
        seen hnf
      rw [hrec]
      exact ⟨n + 1, st3, rfl, hnf3⟩

theorem scanFold_failOps (hashFn : HashFn) (rid : String) (rp : List String)
    (existing : List ExRow) (fs : FS) (fh : Bool) (st : St) :
    (scanFold hashFn rid rp existing fs fh st).st.db.failOps = st.db.failOps :=
  (foldl_frame hashFn rid rp existing fh (walkEntries fs)
    { stats := {}, seen := [], st := st }).2.2.2.2

theorem scanFold_seen (hashFn : HashFn) (rid : String) (rp : List String)
    (existing : List ExRow) (fs : FS) (fh : Bool) (st : St) :
    (scanFold hashFn rid rp existing fs fh st).seen
      = ((walkEntries fs).map entryRel).reverse := by
  unfold scanFold
  rw [foldl_seen]
  simp

theorem scanRoot_noFail (hashFn : HashFn) (rid : String) (rp : List String)
    (fs : FS) (fh : Bool) (st : St) (hnf : st.db.failOps = []) :
    ∃ n st3,
      deleteMissing
        (bumpOp (scanFold hashFn rid rp (scanExisting rid (bumpOp st)) fs fh (bumpOp st)).st)
        (scanExisting rid (bumpOp st))
        (scanFold hashFn rid rp (scanExisting rid (bumpOp st)) fs fh (bumpOp st)).seen
        = (false, n, st3) ∧
      st3.db.failOps = [] ∧
      scanRoot hashFn rid rp fs fh st =
        .ok { (scanFold hashFn rid rp (scanExisting rid (bumpOp st)) fs fh (bumpOp st)).stats with
                removed := (scanFold hashFn rid rp (scanExisting rid (bumpOp st)) fs fh
                  (bumpOp st)).stats.removed + n }
          (bumpOp st3) := by
  have hfoldnf : (scanFold hashFn rid rp (scanExisting rid (bumpOp st)) fs fh
      (bumpOp st)).st.db.failOps = [] := by
    rw [scanFold_failOps, bumpOp_failOps, hnf]
  have hbumpnf : (bumpOp (scanFold hashFn rid rp (scanExisting rid (bumpOp st)) fs fh
      (bumpOp st)).st).db.failOps = [] := by
    rw [bumpOp_failOps]
    exact hfoldnf
  obtain ⟨n, st3, hdel, hnf3⟩ := deleteMissing_noFail
    (scanExisting rid (bumpOp st))
    (bumpOp (scanFold hashFn rid rp (scanExisting rid (bumpOp st)) fs fh (bumpOp st)).st)
    (scanFold hashFn rid rp (scanExisting rid (bumpOp st)) fs fh (bumpOp st)).seen
    hbumpnf
  refine ⟨n, st3, hdel, hnf3, ?_⟩
  dsimp only [scanRoot]
  rw [dbCall_noFail st hnf]
  dsimp only []
  rw [if_neg Bool.false_ne_true]
  rw [dbCall_noFail _ hfoldnf]
  dsimp only []
  rw [if_neg Bool.false_ne_true]
  rw [hdel]
  dsimp only []
  rw [if_neg Bool.false_ne_true]
  rw [dbCall_noFail st3 hnf3]
  dsimp only []
  rw [if_neg Bool.false_ne_true]

/-! ## Claim C6 -/

/-- C6: for every indexed file whose size and mtime_ns are unchanged at the
next scan with no forced rehash, only `last_seen_at` is refreshed: the
record keeps its `file_id` and every other field, and remains the unique
record with that file id. -/
theorem C6_unchanged_only_last_seen
    (hashFn : HashFn) (root_id : String) (root_path : List String) (fs : FS)
    (st : St) (r0 : FileRecord) (e0 : Entry)
    (hwf : filesWF st) (hnf : st.db.failOps = [])
    (hmem : r0 ∈ st.db.files) (hroot : r0.root_id = root_id)
    (he : e0 ∈ walkEntries fs)
    (hrel : entryRel e0 = r0.rel_path)
    (hstat : e0.stat = some { size := r0.size, mtime_ns := r0.mtime_ns })
    (hnodup : ((walkEntries fs).map entryRel).Nodup) :
    ∃ stats st1 t, scanRoot hashFn root_id root_path fs false st = .ok stats st1 ∧
      st1.db.files.filter (fun r => r.file_id == r0.file_id) = [refreshSeen r0 t] := by
  obtain ⟨hfid, hrelwf, hbound⟩ := hwf
  obtain ⟨l1, l2, hsplit⟩ := List.append_of_mem he
  -- notation
  have hrowslem := dict_row_eq st root_id r0 hfid hrelwf hmem hroot
  have hlkself := dict_lookup_self st root_id r0 hfid hrelwf hmem hroot
  -- distinctness of relative paths around e0
  have hne1 : ∀ e ∈ l1, entryRel e ≠ r0.rel_path := by
    rw [hsplit, List.map_append, List.map_cons] at hnodup
    rcases List.nodup_append.mp hnodup with ⟨_, _, hdisj⟩
    intro e hel heq
    apply hdisj (List.mem_map_of_mem entryRel hel)
    rw [heq, ← hrel]
    exact List.mem_cons_self _ _
  have hne2 : ∀ e ∈ l2, entryRel e ≠ r0.rel_path := by
    rw [hsplit, List.map_append, List.map_cons] at hnodup
    rcases List.nodup_append.mp hnodup with ⟨_, hn2, _⟩
    rcases List.nodup_cons.mp hn2 with ⟨hnotin, _⟩
    intro e hel heq
    exact hnotin (by rw [hrel, ← heq]; exact List.mem_map_of_mem entryRel hel)
  have hothers : ∀ e1, entryRel e1 ≠ r0.rel_path →
      ∀ ex1, dictLookup (buildDict ((st.db.files.filter
          (fun r => r.root_id = root_id)).map projectEx)) (entryRel e1) = some ex1 →
        ex1.file_id ≠ r0.file_id := by
    intro e1 hne ex1 hex1 hexf
    obtain ⟨hex1mem, hex1rel⟩ := dictLookup_some_facts hex1
    have := (hrowslem ex1 hex1mem).2 hexf
    rw [this] at hex1rel
    exact hne hex1rel.symm
  -- restate the dict facts over `scanExisting root_id (bumpOp st)` (defeq)
  have hothersE : ∀ e1, entryRel e1 ≠ r0.rel_path →
      ∀ ex1, dictLookup (scanExisting root_id (bumpOp st)) (entryRel e1) = some ex1 →
        ex1.file_id ≠ r0.file_id := hothers
  have hlkE : dictLookup (scanExisting root_id (bumpOp st)) r0.rel_path
      = some (projectEx r0) := hlkself
  have hrowsE : ∀ x ∈ scanExisting root_id (bumpOp st),
      (x.rel_path = r0.rel_path → x = projectEx r0) ∧
      (x.file_id = r0.file_id → x = projectEx r0) := hrowslem
  obtain ⟨n, st3, hdel, hnf3, heqscan⟩ := scanRoot_noFail hashFn root_id root_path fs false st hnf
  -- the fold over l1: the record is untouched
  have hacc1 := foldl_fid hashFn root_id root_path (scanExisting root_id (bumpOp st)) false
    r0.file_id l1 { stats := {}, seen := [], st := bumpOp st }
    (fun e hel ex1 hx => hothersE e (hne1 e hel) ex1 hx)
    (hbound r0 hmem)
  have hinit : ({ stats := {}, seen := [], st := bumpOp st } : ScanAcc).st.db.files.filter
      (fun r => r.file_id == r0.file_id) = [r0] := filter_fid_single st.db.files r0 hfid hmem
  have hfl1 : (l1.foldl (processEntry hashFn root_id root_path
        (scanExisting root_id (bumpOp st)) false)
        { stats := {}, seen := [], st := bumpOp st }).st.db.files.filter
      (fun r => r.file_id == r0.file_id) = [r0] := hacc1.1.trans hinit
  have hnf1 : (l1.foldl (processEntry hashFn root_id root_path
        (scanExisting root_id (bumpOp st)) false)
        { stats := {}, seen := [], st := bumpOp st }).st.db.failOps = [] :=
    ((foldl_frame hashFn root_id root_path (scanExisting root_id (bumpOp st)) false l1
      { stats := {}, seen := [], st := bumpOp st }).2.2.2.2).trans hnf
  -- processing e0 itself: only last_seen_at refreshed
  have hdictE : dictLookup (scanExisting root_id (bumpOp st)) (entryRel e0)
      = some (projectEx r0) := by
    rw [hrel]
    exact hlkE
  have hhit := processEntry_hit hashFn root_id root_path (scanExisting root_id (bumpOp st))
    (l1.foldl (processEntry hashFn root_id root_path (scanExisting root_id (bumpOp st)) false)
      { stats := {}, seen := [], st := bumpOp st })
    e0 { size := r0.size, mtime_ns := r0.mtime_ns } (projectEx r0) hstat hdictE rfl rfl hnf1
  have hfilt2 : (processEntry hashFn root_id root_path (scanExisting root_id (bumpOp st)) false
      (l1.foldl (processEntry hashFn root_id root_path (scanExisting root_id (bumpOp st)) false)
        { stats := {}, seen := [], st := bumpOp st }) e0).st.db.files.filter
      (fun r => r.file_id == r0.file_id)
      = [refreshSeen r0
          (l1.foldl (processEntry hashFn root_id root_path
            (scanExisting root_id (bumpOp st)) false)
            { stats := {}, seen := [], st := bumpOp st }).st.clock] := by
    rw [hhit.1, show (projectEx r0).file_id = r0.file_id from rfl,
      filter_fid_map_self _ r0.file_id
        (fun r => { r with last_seen_at :=
          (l1.foldl (processEntry hashFn root_id root_path
            (scanExisting root_id (bumpOp st)) false)
            { stats := {}, seen := [], st := bumpOp st }).st.clock })
        (fun r => rfl), hfl1]
    rfl
  -- the fold over l2: the refreshed record is untouched
  have hb2 : r0.file_id < (processEntry hashFn root_id root_path
      (scanExisting root_id (bumpOp st)) false
      (l1.foldl (processEntry hashFn root_id root_path (scanExisting root_id (bumpOp st)) false)
        { stats := {}, seen := [], st := bumpOp st }) e0).st.idGen := by
    rw [hhit.2]
    exact Nat.lt_of_lt_of_le (hbound r0 hmem) hacc1.2
  have hacc3 := foldl_fid hashFn root_id root_path (scanExisting root_id (bumpOp st)) false
    r0.file_id l2
    (processEntry hashFn root_id root_path (scanExisting root_id (bumpOp st)) false
      (l1.foldl (processEntry hashFn root_id root_path (scanExisting root_id (bumpOp st)) false)
        { stats := {}, seen := [], st := bumpOp st }) e0)
    (fun e hel ex1 hx => hothersE e (hne2 e hel) ex1 hx) hb2
  have hsf : scanFold hashFn root_id root_path (scanExisting root_id (bumpOp st)) fs false
      (bumpOp st)
      = l2.foldl (processEntry hashFn root_id root_path (scanExisting root_id (bumpOp st)) false)
          (processEntry hashFn root_id root_path (scanExisting root_id (bumpOp st)) false
            (l1.foldl (processEntry hashFn root_id root_path
              (scanExisting root_id (bumpOp st)) false)
              { stats := {}, seen := [], st := bumpOp st }) e0) := by
    unfold scanFold
    rw [hsplit, List.foldl_append, List.foldl_cons]
  have haccflt : (scanFold hashFn root_id root_path (scanExisting root_id (bumpOp st)) fs false
      (bumpOp st)).st.db.files.filter (fun r => r.file_id == r0.file_id)
      = [refreshSeen r0
          (l1.foldl (processEntry hashFn root_id root_path
            (scanExisting root_id (bumpOp st)) false)
            { stats := {}, seen := [], st := bumpOp st }).st.clock] := by
    rw [hsf]
    exact hacc3.1.trans hfilt2
  have haccnf : (scanFold hashFn root_id root_path (scanExisting root_id (bumpOp st)) fs false
      (bumpOp st)).st.db.failOps = [] :=
    (scanFold_failOps hashFn root_id root_path (scanExisting root_id (bumpOp st)) fs false
      (bumpOp st)).trans hnf
  -- the pre-loaded row for r0 was seen, every other row has a different id
  have hmemseen : r0.rel_path ∈ (scanFold hashFn root_id root_path
      (scanExisting root_id (bumpOp st)) fs false (bumpOp st)).seen := by
    rw [scanFold_seen, ← hrel]
    exact List.mem_reverse.mpr (List.mem_map_of_mem entryRel he)
  have hrows : ∀ r ∈ scanExisting root_id (bumpOp st),
      ((scanFold hashFn root_id root_path (scanExisting root_id (bumpOp st)) fs false
        (bumpOp st)).seen.contains r.rel_path) = false → r.file_id ≠ r0.file_id := by
    intro r hr hcont hfeq
    have hre := (hrowsE r hr).2 hfeq
    rw [hre, show (projectEx r0).rel_path = r0.rel_path from rfl,
      mem_contains_true hmemseen] at hcont
    cases hcont
  obtain ⟨n2, st32, hdel2, hfil2, _⟩ := deleteMissing_keeps r0.file_id
    (scanExisting root_id (bumpOp st))
    (bumpOp (scanFold hashFn root_id root_path (scanExisting root_id (bumpOp st)) fs false
      (bumpOp st)).st)
    (scanFold hashFn root_id root_path (scanExisting root_id (bumpOp st)) fs false
      (bumpOp st)).seen
    (by rw [bumpOp_failOps]; exact haccnf) hrows
  have hst : st3 = st32 := congrArg (fun p => p.2.2) (hdel.symm.trans hdel2)
  refine ⟨_, _,
    (l1.foldl (processEntry hashFn root_id root_path (scanExisting root_id (bumpOp st)) false)
      { stats := {}, seen := [], st := bumpOp st }).st.clock, heqscan, ?_⟩
  rw [bumpOp_files, hst, hfil2, bumpOp_files, haccflt]

theorem contains_true_mem {α : Type} [BEq α] [LawfulBEq α] {a : α} {l : List α}
    (h : l.contains a = true) : a ∈ l := by
  induction l with
  | nil => cases h
  | cons b t ih =>
    rw [List.contains_cons, Bool.or_eq_true] at h
    rcases h with hab | ht
    · rw [eq_of_beq hab]
      exact List.mem_cons_self b t
    · exact List.mem_cons_of_mem b (ih ht)

/-! ## Claim C7 -/

/-- C7: a file record whose relative path no longer appears anywhere in the
walk (the file — or its whole containing subtree — was deleted on disk) is
removed from the index by the scan: no record with its file id survives. -/
theorem C7_deleted_removed
    (hashFn : HashFn) (root_id : String) (root_path : List String) (fs : FS)
    (st : St) (r0 : FileRecord) (force_hash : Bool)
    (hwf : filesWF st) (hnf : st.db.failOps = [])
    (hmem : r0 ∈ st.db.files) (hroot : r0.root_id = root_id)
    (hgone : ∀ e ∈ walkEntries fs, entryRel e ≠ r0.rel_path) :
    ∃ stats st1, scanRoot hashFn root_id root_path fs force_hash st = .ok stats st1 ∧
      ∀ r ∈ st1.db.files, r.file_id ≠ r0.file_id := by
  obtain ⟨hfid, hrelwf, hbound⟩ := hwf
  have hlkself := dict_lookup_self st root_id r0 hfid hrelwf hmem hroot
  obtain ⟨n, st3, hdel, hnf3, heqscan⟩ :=
    scanRoot_noFail hashFn root_id root_path fs force_hash st hnf
  have haccnf : (scanFold hashFn root_id root_path (scanExisting root_id (bumpOp st)) fs
      force_hash (bumpOp st)).st.db.failOps = [] :=
    (scanFold_failOps hashFn root_id root_path (scanExisting root_id (bumpOp st)) fs force_hash
      (bumpOp st)).trans hnf
  have hnotseen : ((scanFold hashFn root_id root_path (scanExisting root_id (bumpOp st)) fs
      force_hash (bumpOp st)).seen.contains r0.rel_path) = false := by
    cases hc : ((scanFold hashFn root_id root_path (scanExisting root_id (bumpOp st)) fs
        force_hash (bumpOp st)).seen.contains r0.rel_path) with
    | false => rfl
    | true =>
      exfalso
      have hmem2 := contains_true_mem hc
      rw [scanFold_seen] at hmem2
      obtain ⟨e, he2, herel⟩ := List.mem_map.mp (List.mem_reverse.mp hmem2)
      exact hgone e he2 herel
  have hlkE : dictLookup (scanExisting root_id (bumpOp st)) r0.rel_path
      = some (projectEx r0) := hlkself
  have hE : projectEx r0 ∈ scanExisting root_id (bumpOp st) := (dictLookup_some_facts hlkE).1
  obtain ⟨n2, st32, hdel2, habs, _⟩ := deleteMissing_kills r0.file_id
    (scanExisting root_id (bumpOp st))
    (bumpOp (scanFold hashFn root_id root_path (scanExisting root_id (bumpOp st)) fs force_hash
      (bumpOp st)).st)
    (scanFold hashFn root_id root_path (scanExisting root_id (bumpOp st)) fs force_hash
      (bumpOp st)).seen
    (by rw [bumpOp_failOps]; exact haccnf)
    ⟨projectEx r0, hE, hnotseen, rfl⟩
  have hst : st3 = st32 := congrArg (fun p => p.2.2) (hdel.symm.trans hdel2)
  refine ⟨_, _, heqscan, ?_⟩
  intro r hr
  rw [bumpOp_files, hst] at hr
  exact habs r hr

/-! ## Frame lemmas for the rebuild pipeline (index_runs preservation) -/

theorem dbCall_snd {st st1 : St} {b : Bool} (h : dbCall st = (b, st1)) :
    st1 = bumpOp st := (congrArg Prod.snd h).symm

theorem freshId_snd {st st1 : St} {n : Nat} (h : freshId st = (n, st1)) :
    st1 = { st with idGen := st.idGen + 1 } := (congrArg Prod.snd h).symm

theorem framePres_bump (st : St) : framePres st (bumpOp st) := ⟨rfl, rfl, rfl, rfl, rfl⟩

theorem scanFold_frame (hashFn : HashFn) (rid : String) (rp : List String)
    (existing : List ExRow) (fs : FS) (fh : Bool) (st : St) :
    framePres st (scanFold hashFn rid rp existing fs fh st).st :=
  foldl_frame hashFn rid rp existing fh (walkEntries fs) { stats := {}, seen := [], st := st }

theorem deleteMissing_frame :
    ∀ (rows : List ExRow) (st : St) (seen : List String),
      framePres st (deleteMissing st rows seen).2.2
  | [], _, _ => framePres_refl _
  | r :: rest, st, seen => by
    dsimp only [deleteMissing]
    split
    · exact deleteMissing_frame rest st seen
    · split
      · exact framePres_bump st
      · exact framePres_trans ⟨rfl, rfl, rfl, rfl, rfl⟩ (deleteMissing_frame rest _ seen)

theorem scanRoot_frame (hashFn : HashFn) (rid : String) (rp : List String)
    (fs : FS) (fh : Bool) (st : St) :
    framePres st (scanRoot hashFn rid rp fs fh st).stOf := by
  have hacc : framePres st (scanFold hashFn rid rp (scanExisting rid (bumpOp st)) fs fh
      (bumpOp st)).st :=
    framePres_trans (framePres_bump st)
      (scanFold_frame hashFn rid rp (scanExisting rid (bumpOp st)) fs fh (bumpOp st))
  have hdel : framePres st (deleteMissing
      (bumpOp (scanFold hashFn rid rp (scanExisting rid (bumpOp st)) fs fh (bumpOp st)).st)
      (scanExisting rid (bumpOp st))
      (scanFold hashFn rid rp (scanExisting rid (bumpOp st)) fs fh (bumpOp st)).seen).2.2 :=
    framePres_trans (framePres_trans hacc (framePres_bump _)) (deleteMissing_frame _ _ _)
  dsimp only [scanRoot]
  split
  · exact framePres_bump st
  · split
    · exact framePres_trans hacc (framePres_bump _)
    · split
      · exact hdel
      · split
        · exact framePres_trans hdel (framePres_bump _)
        · exact framePres_trans hdel (framePres_bump _)

theorem sync_runs : ∀ (cfg : List (List String)) (st : St),
    (syncConfiguredRoots cfg st).stOf.db.index_runs = st.db.index_runs
  | [], st => by
    dsimp only [syncConfiguredRoots]
    split <;> rfl
  | p :: rest, st => by
    dsimp only [syncConfiguredRoots]
    split
    · rfl
    · split
      · exact sync_runs rest _
      · split
        · rfl
        · exact sync_runs rest _

theorem resolveRoots_runs (cfg : List (List String)) (spec : Option String) (st : St) :
    (resolveRoots cfg spec st).stOf.db.index_runs = st.db.index_runs := by
  cases spec with
  | some rid =>
    dsimp only [resolveRoots]
    split
    · rfl
    · split <;> rfl
  | none =>
    dsimp only [resolveRoots]
    split
    · rename_i e st1 heq
      have hs := sync_runs cfg st
      rw [heq] at hs
      exact hs
    · rename_i u st1 heq
      have hs := sync_runs cfg st
      rw [heq] at hs
      split
      · exact hs
      · exact hs

theorem loop_runs (hashFn : HashFn) (fsOf : List String → FS) (fh : Bool) :
    ∀ (roots : List (String × List String)) (total : ScanResult) (st : St),
      (scanRootsLoop hashFn fsOf fh roots total st).stOf.db.index_runs = st.db.index_runs
  | [], _, _ => rfl
  | (rid, rpath) :: rest, total, st => by
    dsimp only [scanRootsLoop]
    split
    · rename_i st1 heq
      have hf := scanRoot_frame hashFn rid rpath (fsOf rpath) fh st
      rw [heq] at hf
      exact hf.2.1
    · rename_i stats st1 heq
      have hf := scanRoot_frame hashFn rid rpath (fsOf rpath) fh st
      rw [heq] at hf
      have hruns : st1.db.index_runs = st.db.index_runs := hf.2.1
      split
      · exact hruns
      · split <;>
          (split
           · exact hruns
           · exact (loop_runs hashFn fsOf fh rest _ _).trans hruns)

theorem rebuildBody_ok_run (hashFn : HashFn) (fsOf : List String → FS)
    (cfg : List (List String)) (spec : Option String) (fh : Bool)
    (run_id t0 : Nat) (st : St) (resp : RunResponse) (st1 : St)
    (hok : rebuildBody hashFn fsOf cfg spec fh run_id t0 st = .ok resp st1)
    (hrow : ∃ row ∈ st.db.index_runs, row.index_run_id = run_id ∧ row.kind = "full") :
    resp.run_id = run_id ∧ resp.status = .completed ∧
    ∃ row ∈ st1.db.index_runs, row.index_run_id = run_id ∧ row.kind = "full" ∧
      row.status = .completed := by
  dsimp only [rebuildBody] at hok
  split at hok
  · exact BodyOut.noConfusion hok
  · rename_i roots stA heqA
    have hrunsA : stA.db.index_runs = st.db.index_runs := by
      have h := resolveRoots_runs cfg spec st
      rw [heqA] at h
      exact h
    split at hok
    · exact BodyOut.noConfusion hok
    · rename_i total stB heqB
      have hrunsB : stB.db.index_runs = st.db.index_runs := by
        have h := loop_runs hashFn fsOf fh roots {} stA
        rw [heqB] at h
        exact h.trans hrunsA
      split at hok
      · exact BodyOut.noConfusion hok
      · split at hok
        · exact BodyOut.noConfusion hok
        · injection hok with h1 h2
          subst h2
          refine ⟨by rw [← h1], by rw [← h1], ?_⟩
          obtain ⟨row, hr, hid, hkind⟩ := hrow
          have hrow2 : row ∈ stB.db.index_runs := by
            rw [hrunsB]
            exact hr
          refine ⟨_, List.mem_map.mpr ⟨row, hrow2, rfl⟩, ?_, ?_, ?_⟩
          · rw [if_pos hid]
            exact hid
          · rw [if_pos hid]
            exact hkind
          · rw [if_pos hid]

theorem failRun_never_ok (run_id : Nat) (e : ErrKind) (st : St)
    (resp : RunResponse) (st1 : St) :
    failRun run_id e st = .ok resp st1 → False := by
  dsimp only [failRun]
  split
  · intro h
    exact RebuildOut.noConfusion h
  · split
    · intro h
      exact RebuildOut.noConfusion h
    · intro h
      exact RebuildOut.noConfusion h

/-! ## Claim C9 -/

/-- C9: `rescan()` is definitionally the same operation as
`rebuild_index()` with default arguments, and any run it completes was
recorded with kind "full": the final state holds a run row carrying the
returned run id, kind "full", and status Completed. -/
theorem C9_rescan_is_full_rebuild :
    (∀ (hashFn : HashFn) (fsOf : List String → FS) (cfgRoots : List (List String)) (st : St),
      rescan hashFn fsOf cfgRoots st = rebuildIndex hashFn fsOf cfgRoots none false st) ∧
    (∀ (hashFn : HashFn) (fsOf : List String → FS) (cfgRoots : List (List String)) (st : St)
       (resp : RunResponse) (st1 : St),
      rebuildIndex hashFn fsOf cfgRoots none false st = .ok resp st1 →
      resp.status = .completed ∧
      ∃ row ∈ st1.db.index_runs, row.index_run_id = resp.run_id ∧ row.kind = "full" ∧
        row.status = .completed) := by
  constructor
  · intro hashFn fsOf cfg st
    rfl
  · intro hashFn fsOf cfg st resp st1 hok
    dsimp only [rebuildIndex] at hok
    split at hok
    · exact RebuildOut.noConfusion hok
    · split at hok
      · exact RebuildOut.noConfusion hok
      · split at hok
        · rename_i resp7 st7 heq7
          injection hok with h1 h2
          rw [h1, h2] at heq7
          have hres := rebuildBody_ok_run hashFn fsOf cfg none false _ _ _ resp st1 heq7
            ⟨_, List.mem_append_right _ (List.mem_singleton.mpr rfl), rfl, rfl⟩
          rw [hres.1]
          exact ⟨hres.2.1, hres.2.2⟩
        · rename_i e st7 heq7
          exact absurd hok (fun h => failRun_never_ok _ _ _ _ _ h)

/-! ## Claims C1–C5 (concrete evaluations) and C4/C5 amended forms -/

/-- C1: the claim that starting a rebuild while an IndexRun is Running
returns a Conflict and never yields a second Running run is false on the
code: with a Running run in `index_runs`, `rebuild_index` raises no
conflict and completes normally; and when the finishing and
failure-marking UPDATEs both fail, the database is left with TWO rows in
Running status. -/
theorem C1_running_not_enforced :
    (rebuildIndex hashOracle (fun _ => fsOnlyA) [["data"]] (some "r1") false c1St).isOk = true ∧
    ((rebuildIndex hashOracle (fun _ => fsOnlyA) [["data"]] (some "r1") false c1StFail).stOf.db.index_runs.filter
      (fun r => r.status = .running)).length = 2 := by
  decide

/-- C2: the claim that a rename with unchanged (size, mtime_ns) preserves
`file_id` and inserts one FileAlias is false on the code: after `a.txt`
(file_id 7) is renamed to `b.txt` on disk, the scan deletes the old
record, inserts a fresh record with a new file_id (10), and writes no
FileAlias row. -/
theorem C2_rename_not_detected :
    ((scanRoot hashOracle "r1" ["data"] c2Fs false c2St).stOf.db.files.map
      (fun r => (r.rel_path, r.file_id))) = [("b.txt", 10)] ∧
    (scanRoot hashOracle "r1" ["data"] c2Fs false c2St).stOf.db.file_aliases = [] ∧
    (scanRoot hashOracle "r1" ["data"] c2Fs false c2St).statsOf.removed = 1 ∧
    (scanRoot hashOracle "r1" ["data"] c2Fs false c2St).statsOf.added = 1 := by
  decide

/-- C3: the claim that directories yield index records and a separate
`dirs_indexed` count is false on the code: for a root with `a.txt` and
`sub/b.txt`, the scan records exactly the 2 files (no record for `sub`),
every record carries `is_dir = false`, and `ScanResult` has no directory
counter at all (`added = 2` is the only count). -/
theorem C3_no_directory_records :
    (scanRoot hashOracle "r1" ["data"] c3Fs false c3St).statsOf.added = 2 ∧
    (scanRoot hashOracle "r1" ["data"] c3Fs false c3St).stOf.db.files.length = 2 ∧
    (∀ r ∈ (scanRoot hashOracle "r1" ["data"] c3Fs false c3St).stOf.db.files,
      r.is_dir = false) := by
  decide

/-- C4 (counterexample): a transient database failure during the batch
writes (operation 4 — the per-file INSERT) does not abort the run: the
run is finished as Completed with the failure merely counted in
`stats.errors`, and nothing propagates to the caller. -/
theorem C4_counterexample :
    (rebuildIndex hashOracle (fun _ => fsOnlyA) [["data"]] (some "r1") false c4St).isOk = true ∧
    (rebuildIndex hashOracle (fun _ => fsOnlyA) [["data"]] (some "r1") false c4St).stOf.db.index_runs
      = [{ index_run_id := 10, kind := "full", started_at := some 101,
           status := .completed, finished_at := some 106,
           stats_json := some (.runStats { errors := 1, total_size := 5, duration_ms := 5 }) }] := by
  decide

/-- C4 (amended): only a failure of the pre-load query — the one statement
of `_scan_root` outside its `try` block — can make the scan raise; every
failure after it (batch writes, hashing, commits, deletions) is caught
inside `_scan_root` and the scan returns a `ScanResult` normally. -/
theorem C4_scan_failures_swallowed (hashFn : HashFn) (root_id : String)
    (root_path : List String) (fs : FS) (force_hash : Bool) (st : St)
    (hnf : st.db.failOps.contains st.db.opIndex = false) :
    ∃ stats st1, scanRoot hashFn root_id root_path fs force_hash st = .ok stats st1 := by
  dsimp only [scanRoot]
  rw [dbCall_okc st hnf]
  dsimp only []
  rw [if_neg Bool.false_ne_true]
  repeat' split
  all_goals exact ⟨_, _, rfl⟩

/-- C4 (witness). -/
theorem C4_scan_failures_swallowed_witness :
    (c4WitnessSt.db.failOps.contains c4WitnessSt.db.opIndex = false) ∧
    ∃ stats st1, scanRoot hashOracle "r1" ["data"] fsOnlyA false c4WitnessSt = .ok stats st1 :=
  ⟨by decide,
   C4_scan_failures_swallowed hashOracle "r1" ["data"] fsOnlyA false c4WitnessSt (by decide)⟩

/-- C5 (counterexample): a file of exactly 1,000,000 bytes — the hashing
size ceiling of `_upsert_file` — is NOT hashed when hashing is not
forced: its stored `content_hash` is null even though the hash oracle
could hash it; the claim says a file of exactly the ceiling is hashed. -/
theorem C5_counterexample :
    ((scanRoot hashOracle "r1" ["data"] c5Fs false c5St).stOf.db.files.filter
      (fun r => r.rel_path = "big.bin")).map (fun r => r.content_hash) = [none] := by
  decide

/-- C5 (amended): the hashing ceiling is strict — a file one byte below
1,000,000 bytes is hashed and its digest stored, while a file of exactly
1,000,000 bytes is not hashed and its `content_hash` is null, with no
error raised in either case. -/
theorem C5_hash_ceiling_strict :
    (scanRoot hashOracle "r1" ["data"] c5Fs false c5St).statsOf.errors = 0 ∧
    ((scanRoot hashOracle "r1" ["data"] c5Fs false c5St).stOf.db.files.map
      (fun r => (r.rel_path, r.content_hash))) =
      [("small.bin", some "h:data/small.bin"), ("big.bin", none)] := by
  decide

/-! ## Claim C8 -/

theorem computeContentHash_false (hashFn : HashFn) (rp segs : List String) (n : Nat) :
    computeContentHash hashFn false rp segs n
      = (if n < 1000000 then hashFn (rp ++ segs) else none) := by
  unfold computeContentHash
  by_cases hsz : n < 1000000
  · rw [if_pos (Or.inr hsz), if_pos hsz]
  · rw [if_neg (fun hor => hor.elim (fun hf => Bool.false_ne_true hf) hsz), if_neg hsz]

/-- C8: during a scan without forced hashing, every added or changed file
strictly smaller than 1,000,000 bytes gets its content hash computed and
stored (null exactly when the hasher itself fails), while a file of
1,000,000 bytes or more is skipped and stored with a null hash; the
write itself succeeds. -/
theorem C8_small_files_hashed (hashFn : HashFn) (root_id : String)
    (root_path rel_segs : List String) (fstat : FileStat) (exid : Option Nat) (st : St)
    (hnf : st.db.failOps.contains st.db.opIndex = false)
    (hex : ∀ fid, exid = some fid → ∃ r0 ∈ st.db.files, r0.file_id = fid) :
    ∃ st1, upsertFile hashFn root_id root_path rel_segs fstat exid false st = (false, st1) ∧
      ∃ r ∈ st1.db.files,
        r.file_id = (match exid with | none => st.idGen | some fid => fid) ∧
        r.content_hash = (if fstat.size < 1000000 then hashFn (root_path ++ rel_segs) else none) := by
  cases exid with
  | none =>
    dsimp only [upsertFile, utcnow, freshId]
    rw [dbCall_okc { db := st.db, clock := st.clock + 1 + 1, idGen := st.idGen + 1 } hnf]
    dsimp only []
    rw [if_neg Bool.false_ne_true]
    dsimp only [setFiles, bumpOp]
    refine ⟨_, rfl, ?_⟩
    refine ⟨_, List.mem_append_right _ (List.mem_singleton.mpr rfl), rfl, ?_⟩
    exact computeContentHash_false hashFn root_path rel_segs fstat.size
  | some fid =>
    obtain ⟨r0, hr0, hfid0⟩ := hex fid rfl
    dsimp only [upsertFile, utcnow]
    rw [dbCall_okc { db := st.db, clock := st.clock + 1 + 1, idGen := st.idGen } hnf]
    dsimp only []
    rw [if_neg Bool.false_ne_true]
    dsimp only [setFiles, bumpOp]
    refine ⟨_, rfl, ?_⟩
    refine ⟨_, List.mem_map.mpr ⟨r0, hr0, rfl⟩, ?_, ?_⟩
    · rw [if_pos hfid0]
      exact hfid0
    · rw [if_pos hfid0]
      exact computeContentHash_false hashFn root_path rel_segs fstat.size

/-- C8 (witness). -/
theorem C8_small_files_hashed_witness :
    (c2St.db.failOps.contains c2St.db.opIndex = false) ∧
    (∀ fid, (some 7 : Option Nat) = some fid → ∃ r0 ∈ c2St.db.files, r0.file_id = fid) ∧
    ∃ st1, upsertFile hashOracle "r1" ["data"] ["a.txt"] { size := 6, mtime_ns := 12 }
        (some 7) false c2St = (false, st1) ∧
      ∃ r ∈ st1.db.files,
        r.file_id = (match (some 7 : Option Nat) with | none => c2St.idGen | some fid => fid) ∧
        r.content_hash = (if (6 : Nat) < 1000000 then hashOracle (["data"] ++ ["a.txt"]) else none) :=
  have hex : ∀ fid, (some 7 : Option Nat) = some fid → ∃ r0 ∈ c2St.db.files, r0.file_id = fid :=
    fun fid h => by
      cases h
      exact ⟨recA, List.mem_cons_self _ _, rfl⟩
  ⟨by decide, hex,
   C8_small_files_hashed hashOracle "r1" ["data"] ["a.txt"] { size := 6, mtime_ns := 12 }
     (some 7) c2St (by decide) hex⟩

/-! ## Claim C10 -/

theorem find_isSome_any {α : Type} (p : α → Bool) (l : List α) :
    (l.find? p).isSome = l.any p := by
  induction l with
  | nil => rfl
  | cons a t ih =>
    cases hp : p a
    · rw [List.find?_cons_of_neg _ (by rw [hp]; exact Bool.false_ne_true),
        List.any_cons, hp, Bool.false_or, ih]
    · rw [List.find?_cons_of_pos _ hp, List.any_cons, hp, Bool.true_or]
      rfl

/-- C10 (counterexample): `get_status` CAN raise — the two `index_runs`
queries are outside any `try` block, so a database failure on the very
first query propagates to the caller instead of being swallowed. -/
theorem C10_counterexample : (getStatus c10StFail).isOk = false := by
  decide

/-- C10 (amended): when the two unguarded `index_runs` queries succeed,
`get_status` returns normally with `is_running` true iff a row with
status Running exists; if either of the guarded count queries fails,
`total_files` and `total_roots` are both reported as 0 instead of
propagating the error, and otherwise they are the true table counts. -/
theorem C10_status_amended (st : St)
    (h1 : st.db.failOps.contains st.db.opIndex = false)
    (h2 : st.db.failOps.contains (st.db.opIndex + 1) = false) :
    ∃ s st4, getStatus st = .ok s st4 ∧
      s.is_running = st.db.index_runs.any (fun r => r.status = .running) ∧
      (st.db.failOps.contains (st.db.opIndex + 2) = false →
       st.db.failOps.contains (st.db.opIndex + 3) = false →
       s.total_files = st.db.files.length ∧ s.total_roots = st.db.roots.length) ∧
      ((st.db.failOps.contains (st.db.opIndex + 2) = true ∨
        st.db.failOps.contains (st.db.opIndex + 3) = true) →
       s.total_files = 0 ∧ s.total_roots = 0) := by
  dsimp only [getStatus]
  rw [dbCall_okc st h1]
  dsimp only []
  rw [if_neg Bool.false_ne_true]
  rw [dbCall_okc (bumpOp st) h2]
  dsimp only []
  rw [if_neg Bool.false_ne_true]
  cases h3 : st.db.failOps.contains (st.db.opIndex + 2) with
  | true =>
    rw [dbCall_fail (bumpOp (bumpOp st)) h3]
    dsimp only []
    rw [if_pos rfl]
    refine ⟨_, _, rfl, find_isSome_any _ _, ?_, ?_⟩
    · intro hc
      exact Bool.noConfusion hc
    · intro _
      exact ⟨rfl, rfl⟩
  | false =>
    rw [dbCall_okc (bumpOp (bumpOp st)) h3]
    dsimp only []
    rw [if_neg Bool.false_ne_true]
    cases h4 : st.db.failOps.contains (st.db.opIndex + 3) with
    | true =>
      rw [dbCall_fail (bumpOp (bumpOp (bumpOp st))) h4]
      dsimp only []
      rw [if_pos rfl]
      refine ⟨_, _, rfl, find_isSome_any _ _, ?_, ?_⟩
      · intro _ hc
        exact Bool.noConfusion hc
      · intro _
        exact ⟨rfl, rfl⟩
    | false =>
      rw [dbCall_okc (bumpOp (bumpOp (bumpOp st))) h4]
      dsimp only []
      rw [if_neg Bool.false_ne_true]
      refine ⟨_, _, rfl, find_isSome_any _ _, ?_, ?_⟩
      · intro _ _
        exact ⟨rfl, rfl⟩
      · intro hdisj
        rcases hdisj with hc | hc
        · exact Bool.noConfusion hc
        · exact Bool.noConfusion hc

/-- C10 (witness). -/
theorem C10_status_amended_witness :
    (c1St.db.failOps.contains c1St.db.opIndex = false) ∧
    (c1St.db.failOps.contains (c1St.db.opIndex + 1) = false) ∧
    ∃ s st4, getStatus c1St = .ok s st4 ∧
      s.is_running = c1St.db.index_runs.any (fun r => r.status = .running) ∧
      (c1St.db.failOps.contains (c1St.db.opIndex + 2) = false →
       c1St.db.failOps.contains (c1St.db.opIndex + 3) = false →
       s.total_files = c1St.db.files.length ∧ s.total_roots = c1St.db.roots.length) ∧
      ((c1St.db.failOps.contains (c1St.db.opIndex + 2) = true ∨
        c1St.db.failOps.contains (c1St.db.opIndex + 3) = true) →
       s.total_files = 0 ∧ s.total_roots = 0) :=
  ⟨by decide, by decide, C10_status_amended c1St (by decide) (by decide)⟩

/-! ## Witnesses for C6 and C7 -/

theorem c2St_wf : filesWF c2St := by
  refine ⟨List.pairwise_singleton _ _, List.pairwise_singleton _ _, ?_⟩
  intro r hr
  rw [List.mem_singleton.mp hr]
  decide

/-- C6 (witness). -/
theorem C6_unchanged_only_last_seen_witness :
    filesWF c2St ∧ c2St.db.failOps = [] ∧ recA ∈ c2St.db.files ∧ recA.root_id = "r1" ∧
    c6Entry ∈ walkEntries fsOnlyA ∧ entryRel c6Entry = recA.rel_path ∧
    c6Entry.stat = some { size := recA.size, mtime_ns := recA.mtime_ns } ∧
    ((walkEntries fsOnlyA).map entryRel).Nodup ∧
    ∃ stats st1 t, scanRoot hashOracle "r1" ["data"] fsOnlyA false c2St = .ok stats st1 ∧
      st1.db.files.filter (fun r => r.file_id == recA.file_id) = [refreshSeen recA t] :=
  ⟨c2St_wf, rfl, by decide, rfl, by decide, by decide, by decide, by decide,
   C6_unchanged_only_last_seen hashOracle "r1" ["data"] fsOnlyA c2St recA c6Entry
     c2St_wf rfl (by decide) rfl (by decide) (by decide) (by decide) (by decide)⟩

/-- C7 (witness). -/
theorem C7_deleted_removed_witness :
    filesWF c2St ∧ c2St.db.failOps = [] ∧ recA ∈ c2St.db.files ∧ recA.root_id = "r1" ∧
    (∀ e ∈ walkEntries c7Fs, entryRel e ≠ recA.rel_path) ∧
    ∃ stats st1, scanRoot hashOracle "r1" ["data"] c7Fs false c2St = .ok stats st1 ∧
      ∀ r ∈ st1.db.files, r.file_id ≠ recA.file_id :=
  ⟨c2St_wf, rfl, by decide, rfl, by decide,
   C7_deleted_removed hashOracle "r1" ["data"] c7Fs c2St recA false
     c2St_wf rfl (by decide) rfl (by decide)⟩

/-- C9 (witness). -/
theorem C9_rescan_is_full_rebuild_witness :
    (rescan hashOracle (fun _ => fsOnlyA) [["data"]] c4WitnessSt
       = rebuildIndex hashOracle (fun _ => fsOnlyA) [["data"]] none false c4WitnessSt) ∧
    ((rebuildIndex hashOracle (fun _ => fsOnlyA) [["data"]] none false c4WitnessSt
       = .ok (rebuildIndex hashOracle (fun _ => fsOnlyA) [["data"]] none false c4WitnessSt).respOf
             (rebuildIndex hashOracle (fun _ => fsOnlyA) [["data"]] none false c4WitnessSt).stOf) ∧
     ((rebuildIndex hashOracle (fun _ => fsOnlyA) [["data"]] none false c4WitnessSt).respOf.status
        = .completed ∧
      ∃ row ∈ (rebuildIndex hashOracle (fun _ => fsOnlyA) [["data"]] none false
          c4WitnessSt).stOf.db.index_runs,
        row.index_run_id = (rebuildIndex hashOracle (fun _ => fsOnlyA) [["data"]] none false
          c4WitnessSt).respOf.run_id ∧
        row.kind = "full" ∧ row.status = .completed)) :=
  ⟨C9_rescan_is_full_rebuild.1 hashOracle (fun _ => fsOnlyA) [["data"]] c4WitnessSt,
   ⟨by decide,
    C9_rescan_is_full_rebuild.2 hashOracle (fun _ => fsOnlyA) [["data"]] c4WitnessSt _ _
      (by decide)⟩⟩

end AutoHelper
